import Mathlib

/-!
Verification of the UniPass OAuth gateway core against its design notes.

The development shallow-embeds the protocol layer of the gateway:

* the CSRF state codec of `src/utils/crypto.ts` (`encodeState` / `decodeState`),
  including executable models of the WebAPI `btoa` / `atob` (base64 with
  latin-1 input checking and forgiving decoding) and of `JSON.stringify` /
  `JSON.parse` on a JSON value type whose numbers are integers (the code only
  ever serialises integer millisecond timestamps);
* the plan table and `getRecommendedPlan` of `src/plans.ts`;
* the usage ledger of `src/utils/usage.ts` (`checkLimits`, `incrementUsage`,
  `getDeveloperPlan`), with the KV reads supplied as explicit inputs;
* the provider adapters' `normalizeUser` mappings and the Alipay signing and
  verification canonicalisation of `src/providers/alipay.ts`, with the RSA
  primitive abstracted as an idealised deterministic signature scheme;
* the login and callback handlers of `src/router.ts`, as pure functions of the
  outcomes of their network calls, instrumented with an event trace.

JavaScript truthiness, `||` defaulting, and the numeric coercion used by the
state expiry check are modelled explicitly; string-to-number coercion is
modelled for plain decimal-digit strings (other strings coerce to NaN, which
compares false, exactly as the expiry comparison treats it).
-/

namespace Unipass

/-! ## Base64: models of `btoa` and `atob` -/

/-- Characters of the standard base64 alphabet in index order. -/
def b64Alphabet : List Char :=
  "ABCDEFGHIJKLMNOPQRSTUVWXYZabcdefghijklmnopqrstuvwxyz0123456789+/".toList

/-- Position of a character in the base64 alphabet, `none` for foreign characters. -/
def b64Index (c : Char) : Option Nat :=
  List.findIdx? (fun d => d == c) b64Alphabet

/-- Alphabet character of a sextet value. -/
def sixToChar (n : Nat) : Char := b64Alphabet.getD n 'A'

/-- Sextet stream of a byte list: three bytes give four sextets, a final
single byte gives two and a final pair gives three (padding is separate). -/
def byteSextets : List Nat → List Nat
  | [] => []
  | [b0] => [b0 / 4, b0 % 4 * 16]
  | [b0, b1] => [b0 / 4, b0 % 4 * 16 + b1 / 16, b1 % 16 * 4]
  | b0 :: b1 :: b2 :: bs =>
      b0 / 4 :: (b0 % 4 * 16 + b1 / 16) :: (b1 % 16 * 4 + b2 / 64) :: b2 % 64 ::
        byteSextets bs

/-- Padding characters appended for a byte count with the given remainder mod 3. -/
def b64Pad : Nat → List Char
  | 1 => ['=', '=']
  | 2 => ['=']
  | _ => []

/-- Base64 encoding of a byte list, padded with `=` to a multiple of four. -/
def b64EncodeBytes (bs : List Nat) : List Char :=
  (byteSextets bs).map sixToChar ++ b64Pad (bs.length % 3)

/-- Model of the WebAPI `btoa`: refuses characters above U+00FF, otherwise
base64-encodes the character codes. -/
def btoa (s : String) : Option String :=
  if s.toList.all (fun c => c.toNat < 256) then
    some (String.mk (b64EncodeBytes (s.toList.map Char.toNat)))
  else none

/-- ASCII whitespace removed by forgiving-base64 decoding. -/
def isB64Space (c : Char) : Bool :=
  c == ' ' || c == Char.ofNat 9 || c == Char.ofNat 10 ||
    c == Char.ofNat 12 || c == Char.ofNat 13

/-- Removal of up to two trailing `=` characters. -/
def stripB64Pad (cs : List Char) : List Char :=
  match cs.reverse with
  | c1 :: c2 :: rest =>
      if c1 = '=' then (if c2 = '=' then rest.reverse else (c2 :: rest).reverse) else cs
  | [c1] => if c1 = '=' then [] else cs
  | [] => cs

/-- Four sextets back to three bytes; a trailing group of two or three sextets
yields one or two bytes, surplus bits discarded as forgiving-base64 does. -/
def sextetBytes : List Nat → List Nat
  | s0 :: s1 :: s2 :: s3 :: rest =>
      (s0 * 4 + s1 / 16) :: (s1 % 16 * 16 + s2 / 4) :: (s2 % 4 * 64 + s3) ::
        sextetBytes rest
  | [s0, s1] => [s0 * 4 + s1 / 16]
  | [s0, s1, s2] => [s0 * 4 + s1 / 16, s1 % 16 * 16 + s2 / 4]
  | _ => []

/-- Alphabet positions of a character list, `none` if any character is foreign. -/
def b64Values : List Char → Option (List Nat)
  | [] => some []
  | c :: cs =>
      match b64Index c, b64Values cs with
      | some v, some vs => some (v :: vs)
      | _, _ => none

/-- Forgiving-base64 decoding to bytes: ASCII whitespace is removed, up to two
trailing `=` are stripped when the length is a multiple of four, a length of
`4k+1` is refused, and any foreign character is refused. -/
def b64DecodeBytes (cs : List Char) : Option (List Nat) :=
  let ws := cs.filter (fun c => !isB64Space c)
  let core := if ws.length % 4 = 0 then stripB64Pad ws else ws
  if core.length % 4 = 1 then none
  else (b64Values core).map sextetBytes

/-- Model of the WebAPI `atob`: forgiving-base64, decoded bytes as characters. -/
def atob (s : String) : Option String :=
  (b64DecodeBytes s.toList).map (fun bs => String.mk (bs.map Char.ofNat))

/-! ### Base64 round trip -/

theorem sixToChar_spec : ∀ n : Nat,
    isB64Space (sixToChar n) = false ∧ sixToChar n ≠ '=' := by
  have hlt : ∀ n : Nat, n < 64 →
      isB64Space (sixToChar n) = false ∧ sixToChar n ≠ '=' := by decide
  intro n
  by_cases h : n < 64
  · exact hlt n h
  · have hlen : b64Alphabet.length ≤ n := by
      have : b64Alphabet.length = 64 := by decide
      omega
    have : sixToChar n = 'A' := by
      simp only [sixToChar, List.getD]
      rw [List.get?_eq_none.mpr hlen]
      rfl
    rw [this]
    exact ⟨by decide, by decide⟩

theorem b64Index_sixToChar : ∀ n : Nat, n < 64 → b64Index (sixToChar n) = some n := by
  decide

theorem byteSextets_lt (bs : List Nat) (h : ∀ b ∈ bs, b < 256) :
    ∀ s ∈ byteSextets bs, s < 64 := by
  induction bs using byteSextets.induct with
  | case1 => simp [byteSextets]
  | case2 b0 =>
      have hb0 : b0 < 256 := h b0 (by simp)
      simp only [byteSextets, List.mem_cons, List.mem_singleton]
      rintro s (rfl | rfl | hs) <;> first | omega | simp at hs
  | case3 b0 b1 =>
      have hb0 : b0 < 256 := h b0 (by simp)
      have hb1 : b1 < 256 := h b1 (by simp)
      simp only [byteSextets, List.mem_cons, List.mem_singleton]
      rintro s (rfl | rfl | rfl | hs) <;> first | omega | simp at hs
  | case4 b0 b1 b2 bs ih =>
      have hb0 : b0 < 256 := h b0 (by simp)
      have hb1 : b1 < 256 := h b1 (by simp)
      have hb2 : b2 < 256 := h b2 (by simp)
      have hrest : ∀ b ∈ bs, b < 256 := fun b hb => h b (by simp [hb])
      simp only [byteSextets, List.mem_cons]
      rintro s (rfl | rfl | rfl | rfl | hs)
      · omega
      · omega
      · omega
      · omega
      · exact ih hrest s hs

theorem sextetBytes_byteSextets (bs : List Nat) (h : ∀ b ∈ bs, b < 256) :
    sextetBytes (byteSextets bs) = bs := by
  induction bs using byteSextets.induct with
  | case1 => rfl
  | case2 b0 =>
      have hb0 : b0 < 256 := h b0 (by simp)
      simp only [byteSextets, sextetBytes]
      congr 1
      omega
  | case3 b0 b1 =>
      have hb0 : b0 < 256 := h b0 (by simp)
      have hb1 : b1 < 256 := h b1 (by simp)
      simp only [byteSextets, sextetBytes]
      congr 1
      · omega
      · congr 1
        omega
  | case4 b0 b1 b2 bs ih =>
      have hb0 : b0 < 256 := h b0 (by simp)
      have hb1 : b1 < 256 := h b1 (by simp)
      have hb2 : b2 < 256 := h b2 (by simp)
      have hrest : ∀ b ∈ bs, b < 256 := fun b hb => h b (by simp [hb])
      have htail : sextetBytes (byteSextets bs) = bs := ih hrest
      simp only [byteSextets, sextetBytes, htail]
      congr 1
      · omega
      · congr 1
        · omega
        · congr 1
          omega

def extraSex : Nat → Nat
  | 1 => 2
  | 2 => 3
  | _ => 0

theorem byteSextets_length (bs : List Nat) :
    (byteSextets bs).length = bs.length / 3 * 4 + extraSex (bs.length % 3) := by
  induction bs using byteSextets.induct with
  | case1 => rfl
  | case2 b0 => simp [byteSextets, extraSex]
  | case3 b0 b1 => simp [byteSextets, extraSex]
  | case4 b0 b1 b2 bs ih =>
      simp only [byteSextets, List.length_cons, ih]
      have h3 : (bs.length + 1 + 1 + 1) / 3 = bs.length / 3 + 1 := by omega
      have hm : (bs.length + 1 + 1 + 1) % 3 = bs.length % 3 := by omega
      rw [h3, hm]
      ring

theorem b64Values_map_sixToChar (sx : List Nat) (h : ∀ s ∈ sx, s < 64) :
    b64Values (sx.map sixToChar) = some sx := by
  induction sx with
  | nil => rfl
  | cons s tl ih =>
      have hs : s < 64 := h s (by simp)
      have htl : ∀ x ∈ tl, x < 64 := fun x hx => h x (by simp [hx])
      simp [b64Values, b64Index_sixToChar s hs, ih htl]

theorem stripB64Pad_of_noEq (xs : List Char) (h : ∀ c ∈ xs, c ≠ '=') :
    stripB64Pad xs = xs := by
  unfold stripB64Pad
  split
  · rename_i c1 c2 rest hrev
    have hc1 : c1 ∈ xs := by
      rw [← List.mem_reverse, hrev]
      simp
    rw [if_neg (h c1 hc1)]
  · rename_i c1 hrev
    have hc1 : c1 ∈ xs := by
      rw [← List.mem_reverse, hrev]
      simp
    rw [if_neg (h c1 hc1)]
  · rfl

theorem stripB64Pad_encode (xs : List Char) (h : ∀ c ∈ xs, c ≠ '=') (r : Nat) :
    stripB64Pad (xs ++ b64Pad r) = xs := by
  match r with
  | 0 =>
      show stripB64Pad (xs ++ []) = xs
      rw [List.append_nil]
      exact stripB64Pad_of_noEq xs h
  | 1 =>
      show stripB64Pad (xs ++ ['=', '=']) = xs
      unfold stripB64Pad
      have hrev : (xs ++ ['=', '=']).reverse = '=' :: '=' :: xs.reverse := by simp
      rw [hrev]
      simp
  | 2 =>
      show stripB64Pad (xs ++ ['=']) = xs
      unfold stripB64Pad
      have hrev : (xs ++ ['=']).reverse = '=' :: xs.reverse := by simp
      rw [hrev]
      cases hx : xs.reverse with
      | nil =>
          have : xs = [] := by simpa using congrArg List.reverse hx
          simp [this]
      | cons c2 rest =>
          have hc2 : c2 ∈ xs := by
            rw [← List.mem_reverse, hx]
            simp
          simp only [if_pos rfl, if_neg (h c2 hc2)]
          rw [← hx, List.reverse_reverse]
          simp
  | n + 3 =>
      show stripB64Pad (xs ++ []) = xs
      rw [List.append_nil]
      exact stripB64Pad_of_noEq xs h

theorem b64EncodeBytes_len4 (bs : List Nat) : (b64EncodeBytes bs).length % 4 = 0 := by
  simp only [b64EncodeBytes, List.length_append, List.length_map, byteSextets_length]
  have h3 : bs.length % 3 < 3 := Nat.mod_lt _ (by norm_num)
  rcases hm : bs.length % 3 with _ | _ | _ | k <;>
    (try simp only [extraSex, b64Pad, Nat.zero_add, List.length_cons, List.length_nil]) <;>
    omega

theorem byteSextets_len_not1 (bs : List Nat) : (byteSextets bs).length % 4 ≠ 1 := by
  rw [byteSextets_length]
  have h3 : bs.length % 3 < 3 := Nat.mod_lt _ (by norm_num)
  rcases hm : bs.length % 3 with _ | _ | _ | k <;>
    (try simp only [extraSex, Nat.zero_add]) <;>
    omega

theorem b64DecodeBytes_encode (bs : List Nat) (h : ∀ b ∈ bs, b < 256) :
    b64DecodeBytes (b64EncodeBytes bs) = some bs := by
  have hsx := byteSextets_lt bs h
  have hnoeq : ∀ c ∈ (byteSextets bs).map sixToChar, c ≠ '=' := by
    intro c hc
    obtain ⟨s, _, rfl⟩ := List.mem_map.mp hc
    exact (sixToChar_spec s).2
  have hnosp : ∀ c ∈ b64EncodeBytes bs, isB64Space c = false := by
    intro c hc
    rcases List.mem_append.mp hc with hc | hc
    · obtain ⟨s, _, rfl⟩ := List.mem_map.mp hc
      exact (sixToChar_spec s).1
    · have : c = '=' := by
        rcases hp : bs.length % 3 with _ | _ | _ | k <;> rw [hp] at hc <;>
          simp [b64Pad] at hc <;> tauto
      rw [this]
      decide
  have hfix : (b64EncodeBytes bs).filter (fun c => !isB64Space c) = b64EncodeBytes bs := by
    apply List.filter_eq_self.mpr
    intro c hc
    simp [hnosp c hc]
  have hstrip : stripB64Pad (b64EncodeBytes bs) = (byteSextets bs).map sixToChar :=
    stripB64Pad_encode _ hnoeq _
  simp only [b64DecodeBytes, hfix, if_pos (b64EncodeBytes_len4 bs), hstrip]
  rw [if_neg (by simpa using byteSextets_len_not1 bs)]
  rw [b64Values_map_sixToChar _ hsx]
  simp [sextetBytes_byteSextets bs h]

theorem atob_btoa (s e : String) (he : btoa s = some e) : atob e = some s := by
  unfold btoa at he
  split at he
  · rename_i hall
    have hbytes : ∀ b ∈ s.toList.map Char.toNat, b < 256 := by
      intro b hb
      obtain ⟨c, hc, rfl⟩ := List.mem_map.mp hb
      exact of_decide_eq_true (List.all_eq_true.mp hall c hc)
    have he2 : e = String.mk (b64EncodeBytes (s.toList.map Char.toNat)) :=
      (Option.some_injective _ he).symm
    subst he2
    unfold atob
    have htl : (String.mk (b64EncodeBytes (s.toList.map Char.toNat))).toList
        = b64EncodeBytes (s.toList.map Char.toNat) := rfl
    rw [htl, b64DecodeBytes_encode _ hbytes]
    have hmap : (s.toList.map Char.toNat).map Char.ofNat = s.toList := by
      rw [List.map_map]
      have h1 : s.toList.map (Char.ofNat ∘ Char.toNat) = s.toList.map id :=
        List.map_congr_left fun c _ => Char.ofNat_toNat c
      rw [h1, List.map_id]
    show some (String.mk ((s.toList.map Char.toNat).map Char.ofNat)) = some s
    rw [hmap]
    cases s
    rfl
  · exact absurd he (by simp)

/-! ## JSON: a value type with models of `JSON.parse` and `JSON.stringify`

Numbers are modelled as integers: the state codec only ever serialises an
integer millisecond timestamp, and the parser model refuses fractions and
exponents (a modelling restriction recorded here). -/

inductive JVal where
  | jnull
  | jbool (b : Bool)
  | jnum (n : Int)
  | jstr (s : String)
  | jarr (elems : List JVal)
  | jobj (members : List (String × JVal))

/-- Whitespace accepted between JSON tokens. -/
def isJsonWs (c : Char) : Bool :=
  c == ' ' || c == Char.ofNat 9 || c == Char.ofNat 10 || c == Char.ofNat 13

/-- Removal of leading JSON whitespace. -/
def dropWs : List Char → List Char
  | c :: cs => if isJsonWs c then dropWs cs else c :: cs
  | [] => []

/-- Decimal digit test by code point. -/
def isDigitC (c : Char) : Bool := 48 ≤ c.toNat && c.toNat ≤ 57

/-- Numeric value of a decimal digit run. -/
def digitsVal (ds : List Char) : Nat :=
  ds.foldl (fun a c => a * 10 + (c.toNat - 48)) 0

/-- Longest leading digit run and the remainder. -/
def readDigits : List Char → List Char × List Char
  | c :: cs =>
      if isDigitC c then
        let (ds, r) := readDigits cs
        (c :: ds, r)
      else ([], c :: cs)
  | [] => ([], [])

/-- Natural-number literal: a digit run without a redundant leading zero. -/
def parseJNat (cs : List Char) : Option (Nat × List Char) :=
  match readDigits cs with
  | ([], _) => none
  | (d :: ds, r) =>
      if d = '0' ∧ ds ≠ [] then none
      else some (digitsVal (d :: ds), r)

/-- Integer literal: optional minus sign then a natural-number literal. -/
def parseJNum (cs : List Char) : Option (Int × List Char) :=
  match cs with
  | '-' :: rest =>
      match parseJNat rest with
      | some (n, r) => some (-(n : Int), r)
      | none => none
  | _ =>
      match parseJNat cs with
      | some (n, r) => some ((n : Int), r)
      | none => none

/-- Value of a hexadecimal digit. -/
def hexDigitVal (c : Char) : Option Nat :=
  if 48 ≤ c.toNat ∧ c.toNat ≤ 57 then some (c.toNat - 48)
  else if 97 ≤ c.toNat ∧ c.toNat ≤ 102 then some (c.toNat - 87)
  else if 65 ≤ c.toNat ∧ c.toNat ≤ 70 then some (c.toNat - 55)
  else none

/-- Decoding of one escape sequence after the backslash: the unescaped
character and the remaining input, `none` for a malformed escape. -/
def unescapeHead : List Char → Option (Char × List Char)
  | [] => none
  | e :: rest2 =>
      if e = Char.ofNat 34 then some (Char.ofNat 34, rest2)
      else if e = Char.ofNat 92 then some (Char.ofNat 92, rest2)
      else if e = '/' then some ('/', rest2)
      else if e = 'b' then some (Char.ofNat 8, rest2)
      else if e = 'f' then some (Char.ofNat 12, rest2)
      else if e = 'n' then some (Char.ofNat 10, rest2)
      else if e = 'r' then some (Char.ofNat 13, rest2)
      else if e = 't' then some (Char.ofNat 9, rest2)
      else if e = 'u' then
        match rest2 with
        | h1 :: h2 :: h3 :: h4 :: rest3 =>
            match hexDigitVal h1, hexDigitVal h2, hexDigitVal h3, hexDigitVal h4 with
            | some v1, some v2, some v3, some v4 =>
                some (Char.ofNat (((v1 * 16 + v2) * 16 + v3) * 16 + v4), rest3)
            | _, _, _, _ => none
        | _ => none
      else none

/-- String body after the opening quote, fuelled (one unit per step; the
wrapper supplies the input length, which always suffices): escapes are decoded,
a raw control character or a malformed escape refuses, the closing quote ends
the string. -/
def parseStrBodyF : Nat → List Char → List Char → Option (String × List Char)
  | 0, _, _ => none
  | _ + 1, _, [] => none
  | fuel + 1, acc, c :: rest =>
      if c = Char.ofNat 34 then some (String.mk acc.reverse, rest)
      else if c = Char.ofNat 92 then
        match unescapeHead rest with
        | some (ch, rest2) => parseStrBodyF fuel (ch :: acc) rest2
        | none => none
      else if c.toNat < 32 then none
      else parseStrBodyF fuel (c :: acc) rest

/-- String body parser; the fuel is the remaining input length, which bounds
the step count. -/
def parseStrBody (acc : List Char) (cs : List Char) : Option (String × List Char) :=
  parseStrBodyF (cs.length + 1) acc cs

mutual

/-- Fuelled JSON value parser: leading whitespace is skipped, then the value is
dispatched on its first character. -/
def parseJValue : Nat → List Char → Option (JVal × List Char)
  | 0, _ => none
  | fuel + 1, cs =>
      match dropWs cs with
      | 'n' :: 'u' :: 'l' :: 'l' :: r => some (.jnull, r)
      | 't' :: 'r' :: 'u' :: 'e' :: r => some (.jbool true, r)
      | 'f' :: 'a' :: 'l' :: 's' :: 'e' :: r => some (.jbool false, r)
      | c :: r =>
          if c = Char.ofNat 34 then
            match parseStrBody [] r with
            | some (s, r2) => some (.jstr s, r2)
            | none => none
          else if c = '[' then
            match dropWs r with
            | c2 :: r2 =>
                if c2 = ']' then some (.jarr [], r2)
                else
                  match parseJItems fuel (c2 :: r2) with
                  | some (es, r3) => some (.jarr es, r3)
                  | none => none
            | [] => none
          else if c = Char.ofNat 123 then
            match dropWs r with
            | c2 :: r2 =>
                if c2 = Char.ofNat 125 then some (.jobj [], r2)
                else
                  match parseJPairs fuel (c2 :: r2) with
                  | some (ms, r3) => some (.jobj ms, r3)
                  | none => none
            | [] => none
          else if c = '-' || isDigitC c then
            match parseJNum (c :: r) with
            | some (n, r2) => some (.jnum n, r2)
            | none => none
          else none
      | [] => none

/-- One or more comma-separated array elements, ended by `]`. -/
def parseJItems : Nat → List Char → Option (List JVal × List Char)
  | 0, _ => none
  | fuel + 1, cs =>
      match parseJValue fuel cs with
      | none => none
      | some (v, r) =>
          match dropWs r with
          | ',' :: r2 =>
              match parseJItems fuel r2 with
              | some (vs, r3) => some (v :: vs, r3)
              | none => none
          | ']' :: r2 => some ([v], r2)
          | _ => none

/-- One or more comma-separated object members, ended by the closing brace. -/
def parseJPairs : Nat → List Char → Option (List (String × JVal) × List Char)
  | 0, _ => none
  | fuel + 1, cs =>
      match dropWs cs with
      | c :: r =>
          if c = Char.ofNat 34 then
            match parseStrBody [] r with
            | none => none
            | some (k, r1) =>
                match dropWs r1 with
                | ':' :: r2 =>
                    match parseJValue fuel r2 with
                    | none => none
                    | some (v, r3) =>
                        match dropWs r3 with
                        | ',' :: r4 =>
                            match parseJPairs fuel r4 with
                            | some (ms, r5) => some ((k, v) :: ms, r5)
                            | none => none
                        | c4 :: r4 =>
                            if c4 = Char.ofNat 125 then some ([(k, v)], r4) else none
                        | [] => none
                | _ => none
          else none
      | [] => none

end

/-- Model of `JSON.parse`: a single value with only whitespace around it. -/
def jsonParse (s : String) : Option JVal :=
  match parseJValue (s.length + 1) s.toList with
  | some (v, rest) => if dropWs rest = [] then some v else none
  | none => none

/-- Decimal digit character of a value below ten. -/
def digitChar (n : Nat) : Char := Char.ofNat (48 + n)

/-- Decimal digits of a natural number, most significant first; the fuel is
structural and suffices whenever it exceeds the number. -/
def natCharsAux : Nat → Nat → List Char
  | 0, _ => []
  | fuel + 1, n =>
      if n < 10 then [digitChar n]
      else natCharsAux fuel (n / 10) ++ [digitChar (n % 10)]

/-- Decimal digits of a natural number. -/
def natChars (n : Nat) : List Char := natCharsAux (n + 1) n

/-- Decimal rendering of an integer. -/
def intChars (i : Int) : List Char :=
  (if i < 0 then ['-'] else []) ++ natChars i.natAbs

/-- Lowercase hexadecimal digit character. -/
def toHexChar (n : Nat) : Char :=
  if n < 10 then Char.ofNat (48 + n) else Char.ofNat (97 + n - 10)

/-- One character as `JSON.stringify` escapes it. -/
def escapeChar (c : Char) : List Char :=
  if c = Char.ofNat 34 then [Char.ofNat 92, Char.ofNat 34]
  else if c = Char.ofNat 92 then [Char.ofNat 92, Char.ofNat 92]
  else if c = Char.ofNat 8 then [Char.ofNat 92, 'b']
  else if c = Char.ofNat 9 then [Char.ofNat 92, 't']
  else if c = Char.ofNat 10 then [Char.ofNat 92, 'n']
  else if c = Char.ofNat 12 then [Char.ofNat 92, 'f']
  else if c = Char.ofNat 13 then [Char.ofNat 92, 'r']
  else if c.toNat < 32 then
    [Char.ofNat 92, 'u', '0', '0', toHexChar (c.toNat / 16), toHexChar (c.toNat % 16)]
  else [c]

/-- Quoted, escaped rendering of a string. -/
def quoteStr (s : String) : List Char :=
  Char.ofNat 34 :: (s.toList.flatMap escapeChar ++ [Char.ofNat 34])

mutual

/-- Rendering of a JSON value as `JSON.stringify` produces it (no spaces,
members in insertion order). -/
def renderJ : JVal → List Char
  | .jnull => ['n', 'u', 'l', 'l']
  | .jbool true => ['t', 'r', 'u', 'e']
  | .jbool false => ['f', 'a', 'l', 's', 'e']
  | .jnum n => intChars n
  | .jstr s => quoteStr s
  | .jarr es => '[' :: (renderItems es ++ [']'])
  | .jobj ms => Char.ofNat 123 :: (renderPairs ms ++ [Char.ofNat 125])

/-- Rendering of array elements. -/
def renderItems : List JVal → List Char
  | [] => []
  | e :: es => renderJ e ++ renderItemsTail es

/-- Comma-prefixed rendering of the remaining array elements. -/
def renderItemsTail : List JVal → List Char
  | [] => []
  | e :: es => ',' :: (renderJ e ++ renderItemsTail es)

/-- Rendering of object members. -/
def renderPairs : List (String × JVal) → List Char
  | [] => []
  | (k, v) :: ms => quoteStr k ++ ':' :: (renderJ v ++ renderPairsTail ms)

/-- Comma-prefixed rendering of the remaining object members. -/
def renderPairsTail : List (String × JVal) → List Char
  | [] => []
  | (k, v) :: ms => ',' :: (quoteStr k ++ ':' :: (renderJ v ++ renderPairsTail ms))

end

/-- Model of `JSON.stringify`. -/
def jsonStringify (v : JVal) : String := String.mk (renderJ v)

/-! ### JSON codec round trip -/

theorem mk_toList (s : String) : String.mk s.toList = s := by
  cases s
  rfl

/-- Input that cannot extend a digit run: empty or headed by a non-digit. -/
def numDelim : List Char → Bool
  | [] => true
  | c :: _ => !isDigitC c

theorem dropWs_cons_of_notWs {c : Char} (t : List Char) (h : isJsonWs c = false) :
    dropWs (c :: t) = c :: t := by
  simp [dropWs, h]

theorem digitChar_spec (k : Nat) (h : k < 10) :
    isDigitC (digitChar k) = true ∧ (digitChar k).toNat = 48 + k := by
  interval_cases k <;> exact ⟨by decide, by decide⟩

theorem natCharsAux_digits : ∀ fuel n, n < fuel →
    ∀ c ∈ natCharsAux fuel n, isDigitC c = true := by
  intro fuel
  induction fuel with
  | zero => omega
  | succ f ih =>
      intro n hn c hc
      rw [natCharsAux] at hc
      by_cases h10 : n < 10
      · rw [if_pos h10] at hc
        simp only [List.mem_singleton] at hc
        subst hc
        exact (digitChar_spec n h10).1
      · rw [if_neg h10] at hc
        rcases List.mem_append.mp hc with hc | hc
        · exact ih (n / 10) (by omega) c hc
        · simp only [List.mem_singleton] at hc
          subst hc
          exact (digitChar_spec (n % 10) (Nat.mod_lt _ (by norm_num))).1

theorem natCharsAux_ne_nil : ∀ fuel n, n < fuel → natCharsAux fuel n ≠ [] := by
  intro fuel
  induction fuel with
  | zero => omega
  | succ f ih =>
      intro n hn
      rw [natCharsAux]
      by_cases h10 : n < 10
      · simp [h10]
      · simp [h10]

theorem natCharsAux_msd : ∀ fuel n, n < fuel → 0 < n →
    ∃ d ds, natCharsAux fuel n = d :: ds ∧ d ≠ '0' := by
  intro fuel
  induction fuel with
  | zero => omega
  | succ f ih =>
      intro n hn hpos
      rw [natCharsAux]
      by_cases h10 : n < 10
      · refine ⟨digitChar n, [], by simp [h10], ?_⟩
        intro hd
        have : (digitChar n).toNat = 48 := by rw [hd]; decide
        rw [(digitChar_spec n h10).2] at this
        omega
      · obtain ⟨d, ds, hds, hd0⟩ := ih (n / 10) (by omega) (by omega)
        exact ⟨d, ds ++ [digitChar (n % 10)], by simp [h10, hds], hd0⟩

theorem digitsVal_natCharsAux : ∀ fuel n, n < fuel →
    digitsVal (natCharsAux fuel n) = n := by
  intro fuel
  induction fuel with
  | zero => omega
  | succ f ih =>
      intro n hn
      rw [natCharsAux]
      by_cases h10 : n < 10
      · rw [if_pos h10]
        have := (digitChar_spec n h10).2
        simp [digitsVal, this]
      · rw [if_neg h10]
        have hv := ih (n / 10) (by omega)
        have hd := (digitChar_spec (n % 10) (Nat.mod_lt _ (by norm_num))).2
        simp only [digitsVal, List.foldl_append, List.foldl_cons, List.foldl_nil]
        rw [show List.foldl (fun a c => a * 10 + (c.toNat - 48)) 0 (natCharsAux f (n / 10))
            = digitsVal (natCharsAux f (n / 10)) from rfl, hv, hd]
        omega

theorem readDigits_stop (cs : List Char) (h : numDelim cs = true) :
    readDigits cs = ([], cs) := by
  match cs with
  | [] => rfl
  | c :: t =>
      have hc : isDigitC c = false := by
        simpa [numDelim] using h
      simp [readDigits, hc]

theorem readDigits_run (ds : List Char) (hds : ∀ c ∈ ds, isDigitC c = true)
    (rest : List Char) (hrest : numDelim rest = true) :
    readDigits (ds ++ rest) = (ds, rest) := by
  induction ds with
  | nil => simpa using readDigits_stop rest hrest
  | cons c t ih =>
      have hc : isDigitC c = true := hds c (by simp)
      have ht := ih fun x hx => hds x (by simp [hx])
      simp [readDigits, hc, ht]

theorem parseJNat_natChars (n : Nat) (rest : List Char) (hr : numDelim rest = true) :
    parseJNat (natChars n ++ rest) = some (n, rest) := by
  have hdig := natCharsAux_digits (n + 1) n (by omega)
  have hrun := readDigits_run (natChars n) hdig rest hr
  obtain ⟨d, ds, hcons⟩ :=
    List.exists_cons_of_ne_nil (natCharsAux_ne_nil (n + 1) n (by omega))
  have hcons2 : natChars n = d :: ds := hcons
  unfold parseJNat
  rw [hrun, hcons2]
  show (if d = '0' ∧ ds ≠ [] then none else some (digitsVal (d :: ds), rest))
      = some (n, rest)
  have hguard : ¬(d = '0' ∧ ds ≠ []) := by
    by_cases h10 : n < 10
    · have hone : natCharsAux (n + 1) n = [digitChar n] := by
        rw [natCharsAux, if_pos h10]
      rw [hone] at hcons
      intro hand
      exact hand.2 (by injection hcons with h1 h2; exact h2.symm)
    · obtain ⟨d2, ds2, hds2, hd2⟩ := natCharsAux_msd (n + 1) n (by omega) (by omega)
      rw [hds2] at hcons
      injection hcons with h1 h2
      intro hand
      exact hd2 (h1 ▸ hand.1)
  rw [if_neg hguard]
  have hval : digitsVal (d :: ds) = n := by
    rw [← hcons2]
    exact digitsVal_natCharsAux (n + 1) n (by omega)
  rw [hval]

theorem digit_ne_minus {c : Char} (h : isDigitC c = true) : c ≠ '-' := by
  intro hc
  subst hc
  simp [isDigitC] at h

theorem parseJNum_intChars (i : Int) (rest : List Char) (hr : numDelim rest = true) :
    parseJNum (intChars i ++ rest) = some (i, rest) := by
  by_cases hneg : i < 0
  · have harg : intChars i ++ rest = '-' :: (natChars i.natAbs ++ rest) := by
      simp [intChars, hneg]
    rw [harg]
    show (match parseJNat (natChars i.natAbs ++ rest) with
          | some (n, r) => some (-(n : Int), r)
          | none => none) = some (i, rest)
    rw [parseJNat_natChars i.natAbs rest hr]
    show some (-(i.natAbs : Int), rest) = some (i, rest)
    simp only [Option.some.injEq, Prod.mk.injEq, and_true]
    omega
  · obtain ⟨d, ds, hcons⟩ :=
      List.exists_cons_of_ne_nil (natCharsAux_ne_nil (i.natAbs + 1) i.natAbs (by omega))
    have hcons2 : natChars i.natAbs = d :: ds := hcons
    have hd : isDigitC d = true := by
      apply natCharsAux_digits (i.natAbs + 1) i.natAbs (by omega)
      rw [hcons]
      simp
    have harg : intChars i ++ rest = d :: (ds ++ rest) := by
      simp [intChars, hneg, hcons2]
    rw [harg]
    have hnm : d ≠ '-' := digit_ne_minus hd
    have hnat := parseJNat_natChars i.natAbs rest hr
    unfold parseJNum
    split
    · rename_i heq
      injection heq with h1 h2
      exact absurd h1 hnm
    · rw [show (d :: (ds ++ rest) : List Char) = natChars i.natAbs ++ rest from by
        rw [hcons2, List.cons_append]]
      rw [hnat]
      simp only [Option.some.injEq, Prod.mk.injEq, and_true]
      omega

theorem hexDigitVal_toHexChar (k : Nat) (h : k < 16) : hexDigitVal (toHexChar k) = some k := by
  interval_cases k <;> decide

theorem escapeChar_ne_nil (c : Char) : 1 ≤ (escapeChar c).length := by
  unfold escapeChar
  split
  · simp
  split
  · simp
  split
  · simp
  split
  · simp
  split
  · simp
  split
  · simp
  split
  · simp
  split
  · simp
  · simp

theorem parseStrBodyF_escape (fuel : Nat) (c : Char) (acc rest : List Char) :
    parseStrBodyF (fuel + 1) acc (escapeChar c ++ rest) = parseStrBodyF fuel (c :: acc) rest := by
  by_cases h34 : c = Char.ofNat 34
  · subst h34
    rfl
  by_cases h92 : c = Char.ofNat 92
  · subst h92
    rfl
  by_cases h8 : c = Char.ofNat 8
  · subst h8
    rfl
  by_cases h9 : c = Char.ofNat 9
  · subst h9
    rfl
  by_cases h10c : c = Char.ofNat 10
  · subst h10c
    rfl
  by_cases h12 : c = Char.ofNat 12
  · subst h12
    rfl
  by_cases h13 : c = Char.ofNat 13
  · subst h13
    rfl
  by_cases hlt : c.toNat < 32
  · rw [escapeChar, if_neg h34, if_neg h92, if_neg h8, if_neg h9, if_neg h10c, if_neg h12,
      if_neg h13, if_pos hlt]
    have hu : unescapeHead
        ('u' :: '0' :: '0' :: toHexChar (c.toNat / 16) :: toHexChar (c.toNat % 16) :: rest)
        = some (c, rest) := by
      show (match hexDigitVal '0', hexDigitVal '0', hexDigitVal (toHexChar (c.toNat / 16)),
              hexDigitVal (toHexChar (c.toNat % 16)) with
            | some v1, some v2, some v3, some v4 =>
                some (Char.ofNat (((v1 * 16 + v2) * 16 + v3) * 16 + v4), rest)
            | _, _, _, _ => none) = some (c, rest)
      rw [hexDigitVal_toHexChar (c.toNat / 16) (by omega),
        hexDigitVal_toHexChar (c.toNat % 16) (by omega)]
      show some (Char.ofNat (((0 * 16 + 0) * 16 + c.toNat / 16) * 16 + c.toNat % 16), rest)
          = some (c, rest)
      rw [show ((0 * 16 + 0) * 16 + c.toNat / 16) * 16 + c.toNat % 16 = c.toNat by omega,
        Char.ofNat_toNat]
    show (match unescapeHead
            ('u' :: '0' :: '0' :: toHexChar (c.toNat / 16) :: toHexChar (c.toNat % 16) :: rest)
          with
          | some (ch, rest2) => parseStrBodyF fuel (ch :: acc) rest2
          | none => none) = parseStrBodyF fuel (c :: acc) rest
    rw [hu]
  · rw [escapeChar, if_neg h34, if_neg h92, if_neg h8, if_neg h9, if_neg h10c, if_neg h12,
      if_neg h13, if_neg hlt]
    show (if c = Char.ofNat 34 then some (String.mk acc.reverse, rest)
          else if c = Char.ofNat 92 then
            match unescapeHead rest with
            | some (ch, rest2) => parseStrBodyF fuel (ch :: acc) rest2
            | none => none
          else if c.toNat < 32 then none
          else parseStrBodyF fuel (c :: acc) rest) = parseStrBodyF fuel (c :: acc) rest
    rw [if_neg h34, if_neg h92, if_neg hlt]

theorem parseStrBodyF_unescape (cs : List Char) : ∀ (fuel : Nat) (acc rest : List Char),
    cs.length < fuel →
    parseStrBodyF fuel acc (cs.flatMap escapeChar ++ Char.ofNat 34 :: rest)
      = some (String.mk (acc.reverse ++ cs), rest) := by
  induction cs with
  | nil =>
      intro fuel acc rest hf
      match fuel, hf with
      | f + 1, _ =>
          show some (String.mk acc.reverse, rest)
              = some (String.mk (acc.reverse ++ []), rest)
          simp
  | cons c cs ih =>
      intro fuel acc rest hf
      match fuel, hf with
      | f + 1, hf =>
          rw [List.flatMap_cons, List.append_assoc, parseStrBodyF_escape]
          rw [ih f (c :: acc) rest (by simp only [List.length_cons] at hf; omega)]
          simp

theorem flatMap_escape_length (cs : List Char) :
    cs.length ≤ (cs.flatMap escapeChar).length := by
  induction cs with
  | nil => simp
  | cons c cs ih =>
      rw [List.flatMap_cons, List.length_append, List.length_cons]
      have := escapeChar_ne_nil c
      omega

theorem quoteStr_parse (s : String) (rest : List Char) :
    parseStrBody [] (s.toList.flatMap escapeChar ++ Char.ofNat 34 :: rest)
      = some (s, rest) := by
  unfold parseStrBody
  rw [parseStrBodyF_unescape s.toList _ [] rest ?_]
  · simp [mk_toList]
  · have h1 := flatMap_escape_length s.toList
    simp only [List.length_append, List.length_cons]
    omega

theorem digit_toNat {c : Char} (h : isDigitC c = true) :
    48 ≤ c.toNat ∧ c.toNat ≤ 57 := by
  simpa [isDigitC] using h

theorem digit_not_ws {c : Char} (h : isDigitC c = true) : isJsonWs c = false := by
  by_contra hw
  rw [Bool.not_eq_false] at hw
  simp only [isJsonWs, Bool.or_eq_true, beq_iff_eq] at hw
  rcases hw with ((rfl | rfl) | rfl) | rfl <;> simp [isDigitC] at h

theorem numHead_facts {c : Char} (h : c = '-' ∨ isDigitC c = true) :
    isJsonWs c = false ∧ c ≠ 'n' ∧ c ≠ 't' ∧ c ≠ 'f' ∧ c ≠ Char.ofNat 34 ∧
      c ≠ '[' ∧ c ≠ Char.ofNat 123 ∧ c ≠ ']' ∧ c ≠ Char.ofNat 125 := by
  rcases h with rfl | h
  · refine ⟨by decide, by decide, by decide, by decide, by decide, by decide, by decide,
      by decide, by decide⟩
  · refine ⟨digit_not_ws h, ?_, ?_, ?_, ?_, ?_, ?_, ?_, ?_⟩ <;>
      (intro hc; subst hc; exact absurd h (by decide))

/-- First character of any rendered JSON value: never whitespace and never a
closing bracket, closing brace or comma. -/
theorem renderJ_head (v : JVal) :
    ∃ c t, renderJ v = c :: t ∧ isJsonWs c = false ∧ c ≠ ']' ∧ c ≠ Char.ofNat 125 := by
  cases v with
  | jnull => exact ⟨'n', _, rfl, by decide, by decide, by decide⟩
  | jbool b =>
      cases b
      · exact ⟨'f', _, rfl, by decide, by decide, by decide⟩
      · exact ⟨'t', _, rfl, by decide, by decide, by decide⟩
  | jnum n =>
      by_cases hneg : n < 0
      · refine ⟨'-', natChars n.natAbs, ?_, by decide, by decide, by decide⟩
        simp [renderJ, intChars, hneg]
      · obtain ⟨d, ds, hcons⟩ :=
          List.exists_cons_of_ne_nil (natCharsAux_ne_nil (n.natAbs + 1) n.natAbs (by omega))
        have hd : isDigitC d = true := by
          apply natCharsAux_digits (n.natAbs + 1) n.natAbs (by omega)
          rw [hcons]
          simp
        obtain ⟨hws, _, _, _, _, _, _, hd1, hd2⟩ := numHead_facts (Or.inr hd)
        refine ⟨d, ds, ?_, hws, hd1, hd2⟩
        simp [renderJ, intChars, hneg, show natChars n.natAbs = d :: ds from hcons]
  | jstr s => exact ⟨Char.ofNat 34, _, rfl, by decide, by decide, by decide⟩
  | jarr es => exact ⟨'[', _, rfl, by decide, by decide, by decide⟩
  | jobj ms => exact ⟨Char.ofNat 123, _, rfl, by decide, by decide, by decide⟩

theorem dropWs_renderJ (v : JVal) (x : List Char) :
    dropWs (renderJ v ++ x) = renderJ v ++ x := by
  obtain ⟨c, t, hct, hws, _, _⟩ := renderJ_head v
  rw [hct, List.cons_append]
  exact dropWs_cons_of_notWs _ hws

mutual

/-- Node count of a JSON value, bounding the parser fuel it needs. -/
def jsize : JVal → Nat
  | .jnull => 1
  | .jbool _ => 1
  | .jnum _ => 1
  | .jstr _ => 1
  | .jarr es => 1 + jsizeArr es
  | .jobj ms => 1 + jsizeObj ms

/-- Node count of array elements. -/
def jsizeArr : List JVal → Nat
  | [] => 0
  | e :: es => 1 + jsize e + jsizeArr es

/-- Node count of object members. -/
def jsizeObj : List (String × JVal) → Nat
  | [] => 0
  | (_, v) :: ms => 1 + jsize v + jsizeObj ms

end

theorem numDelim_itemsTail (es : List JVal) (rest : List Char) :
    numDelim (renderItemsTail es ++ ']' :: rest) = true := by
  cases es with
  | nil => rfl
  | cons e es => rfl

theorem numDelim_pairsTail (ms : List (String × JVal)) (rest : List Char) :
    numDelim (renderPairsTail ms ++ Char.ofNat 125 :: rest) = true := by
  cases ms with
  | nil => rfl
  | cons m ms =>
      obtain ⟨k, v⟩ := m
      rfl

theorem intChars_head (i : Int) :
    ∃ c t, intChars i = c :: t ∧ (c = '-' ∨ isDigitC c = true) := by
  by_cases hneg : i < 0
  · exact ⟨'-', natChars i.natAbs, by simp [intChars, hneg], Or.inl rfl⟩
  · obtain ⟨d, ds, hcons⟩ :=
      List.exists_cons_of_ne_nil (natCharsAux_ne_nil (i.natAbs + 1) i.natAbs (by omega))
    have hd : isDigitC d = true := by
      apply natCharsAux_digits (i.natAbs + 1) i.natAbs (by omega)
      rw [hcons]
      simp
    exact ⟨d, ds, by simp [intChars, hneg, show natChars i.natAbs = d :: ds from hcons],
      Or.inr hd⟩

theorem parse_render_fuel : ∀ fuel : Nat,
    (∀ v rest, jsize v < fuel → numDelim rest = true →
      parseJValue fuel (renderJ v ++ rest) = some (v, rest)) ∧
    (∀ es rest, jsizeArr es < fuel → es ≠ [] →
      parseJItems fuel (renderItems es ++ ']' :: rest) = some (es, rest)) ∧
    (∀ ms rest, jsizeObj ms < fuel → ms ≠ [] →
      parseJPairs fuel (renderPairs ms ++ Char.ofNat 125 :: rest) = some (ms, rest)) := by
  intro fuel
  induction fuel with
  | zero =>
      exact ⟨fun v rest h _ => absurd h (by omega),
        fun es rest h _ => absurd h (by omega),
        fun ms rest h _ => absurd h (by omega)⟩
  | succ f ih =>
      obtain ⟨ihP, ihQ, ihR⟩ := ih
      refine ⟨?_, ?_, ?_⟩
      · intro v rest hsz hrest
        cases v with
        | jnull => rfl
        | jbool b => cases b <;> rfl
        | jnum n =>
            obtain ⟨c, t, hct, hcd⟩ := intChars_head n
            obtain ⟨hws, hn, hT, hF, hq, hbk, hbr, _, _⟩ := numHead_facts hcd
            have harg : renderJ (.jnum n) ++ rest = c :: (t ++ rest) := by
              simp [renderJ, hct]
            rw [harg, parseJValue]
            rw [dropWs_cons_of_notWs _ hws]
            split
            · rename_i heq
              injection heq with h1 _
              exact absurd h1 hn
            · rename_i heq
              injection heq with h1 _
              exact absurd h1 hT
            · rename_i heq
              injection heq with h1 _
              exact absurd h1 hF
            · rename_i c2 r2 heq
              injection heq with h1 h2
              subst h1
              subst h2
              rw [if_neg hq, if_neg hbk, if_neg hbr,
                if_pos (show (c = '-' || isDigitC c) = true by
                  rcases hcd with rfl | h
                  · simp
                  · simp [h])]
              rw [show c :: (t ++ rest) = intChars n ++ rest from by rw [hct]; rfl]
              rw [parseJNum_intChars n rest hrest]
            · rename_i heq
              exact absurd heq (by simp)
        | jstr s =>
            have harg : renderJ (.jstr s) ++ rest
                = Char.ofNat 34 :: (s.toList.flatMap escapeChar ++ Char.ofNat 34 :: rest) := by
              simp [renderJ, quoteStr]
            rw [harg]
            show (match parseStrBody [] (s.toList.flatMap escapeChar ++ Char.ofNat 34 :: rest)
                  with
                  | some (s2, r2) => some (JVal.jstr s2, r2)
                  | none => none) = some (.jstr s, rest)
            rw [quoteStr_parse]
        | jarr es =>
            cases es with
            | nil => rfl
            | cons e es2 =>
                obtain ⟨c, t, hct, hws, hbr1, _⟩ := renderJ_head e
                have hx : renderItems (e :: es2) ++ ']' :: rest
                    = c :: (t ++ (renderItemsTail es2 ++ ']' :: rest)) := by
                  simp [renderItems, hct]
                have harg : renderJ (.jarr (e :: es2)) ++ rest
                    = '[' :: (renderItems (e :: es2) ++ ']' :: rest) := by
                  simp [renderJ]
                rw [harg]
                show (match dropWs (renderItems (e :: es2) ++ ']' :: rest) with
                      | c2 :: r2 =>
                          if c2 = ']' then some (JVal.jarr [], r2)
                          else
                            match parseJItems f (c2 :: r2) with
                            | some (es3, r3) => some (JVal.jarr es3, r3)
                            | none => none
                      | [] => none) = some (.jarr (e :: es2), rest)
                rw [hx, dropWs_cons_of_notWs _ hws]
                show (if c = ']' then
                        some (JVal.jarr [], t ++ (renderItemsTail es2 ++ ']' :: rest))
                      else
                        match parseJItems f (c :: (t ++ (renderItemsTail es2 ++ ']' :: rest)))
                        with
                        | some (es3, r3) => some (JVal.jarr es3, r3)
                        | none => none) = some (.jarr (e :: es2), rest)
                rw [if_neg hbr1, ← hx]
                rw [ihQ (e :: es2) rest (by simp [jsize, jsizeArr] at hsz ⊢; omega)
                  (by simp)]
        | jobj ms =>
            cases ms with
            | nil => rfl
            | cons p ms2 =>
                obtain ⟨k, v⟩ := p
                have hx : renderPairs ((k, v) :: ms2) ++ Char.ofNat 125 :: rest
                    = Char.ofNat 34 :: (k.toList.flatMap escapeChar
                        ++ Char.ofNat 34 :: (':' :: (renderJ v
                          ++ (renderPairsTail ms2 ++ Char.ofNat 125 :: rest)))) := by
                  simp [renderPairs, quoteStr]
                have harg : renderJ (.jobj ((k, v) :: ms2)) ++ rest
                    = Char.ofNat 123 :: (renderPairs ((k, v) :: ms2)
                        ++ Char.ofNat 125 :: rest) := by
                  simp [renderJ]
                rw [harg]
                show (match dropWs (renderPairs ((k, v) :: ms2) ++ Char.ofNat 125 :: rest) with
                      | c2 :: r2 =>
                          if c2 = Char.ofNat 125 then some (JVal.jobj [], r2)
                          else
                            match parseJPairs f (c2 :: r2) with
                            | some (ms3, r3) => some (JVal.jobj ms3, r3)
                            | none => none
                      | [] => none) = some (.jobj ((k, v) :: ms2), rest)
                rw [hx]
                show (match parseJPairs f (Char.ofNat 34 :: (k.toList.flatMap escapeChar
                        ++ Char.ofNat 34 :: (':' :: (renderJ v
                          ++ (renderPairsTail ms2 ++ Char.ofNat 125 :: rest))))) with
                      | some (ms3, r3) => some (JVal.jobj ms3, r3)
                      | none => none) = some (.jobj ((k, v) :: ms2), rest)
                rw [← hx]
                rw [ihR ((k, v) :: ms2) rest (by simp [jsize, jsizeObj] at hsz ⊢; omega)
                  (by simp)]
      · intro es rest hsz hne
        match es, hne with
        | e :: es2, _ =>
            have hv := ihP e (renderItemsTail es2 ++ ']' :: rest)
              (by simp [jsizeArr] at hsz; omega) (numDelim_itemsTail es2 rest)
            show (match parseJValue f (renderItems (e :: es2) ++ ']' :: rest) with
                  | none => none
                  | some (v, r) =>
                      match dropWs r with
                      | ',' :: r2 =>
                          match parseJItems f r2 with
                          | some (vs, r3) => some (v :: vs, r3)
                          | none => none
                      | ']' :: r2 => some ([v], r2)
                      | _ => none) = some (e :: es2, rest)
            rw [show renderItems (e :: es2) ++ ']' :: rest
                = renderJ e ++ (renderItemsTail es2 ++ ']' :: rest) from by
              simp [renderItems]]
            rw [hv]
            cases es2 with
            | nil => rfl
            | cons e2 es3 =>
                show (match dropWs (renderItemsTail (e2 :: es3) ++ ']' :: rest) with
                      | ',' :: r2 =>
                          match parseJItems f r2 with
                          | some (vs, r3) => some (e :: vs, r3)
                          | none => none
                      | ']' :: r2 => some ([e], r2)
                      | _ => none) = some (e :: e2 :: es3, rest)
                rw [show renderItemsTail (e2 :: es3) ++ ']' :: rest
                    = ',' :: (renderItems (e2 :: es3) ++ ']' :: rest) from by
                  simp [renderItemsTail, renderItems]]
                rw [dropWs_cons_of_notWs _ (by decide)]
                show (match parseJItems f (renderItems (e2 :: es3) ++ ']' :: rest) with
                      | some (vs, r3) => some (e :: vs, r3)
                      | none => none) = some (e :: e2 :: es3, rest)
                rw [ihQ (e2 :: es3) rest (by simp [jsizeArr] at hsz ⊢; omega) (by simp)]
      · intro ms rest hsz hne
        match ms, hne with
        | (k, v) :: ms2, _ =>
            have hx : renderPairs ((k, v) :: ms2) ++ Char.ofNat 125 :: rest
                = Char.ofNat 34 :: (k.toList.flatMap escapeChar
                    ++ Char.ofNat 34 :: (':' :: (renderJ v
                      ++ (renderPairsTail ms2 ++ Char.ofNat 125 :: rest)))) := by
              simp [renderPairs, quoteStr]
            rw [hx]
            show (match parseStrBody [] (k.toList.flatMap escapeChar
                    ++ Char.ofNat 34 :: (':' :: (renderJ v
                      ++ (renderPairsTail ms2 ++ Char.ofNat 125 :: rest)))) with
                  | none => none
                  | some (k2, r1) =>
                      match dropWs r1 with
                      | ':' :: r2 =>
                          match parseJValue f r2 with
                          | none => none
                          | some (v2, r3) =>
                              match dropWs r3 with
                              | ',' :: r4 =>
                                  match parseJPairs f r4 with
                                  | some (ms3, r5) => some ((k2, v2) :: ms3, r5)
                                  | none => none
                              | c4 :: r4 =>
                                  if c4 = Char.ofNat 125 then some ([(k2, v2)], r4) else none
                              | [] => none
                      | _ => none) = some ((k, v) :: ms2, rest)
            rw [quoteStr_parse k (':' :: (renderJ v
              ++ (renderPairsTail ms2 ++ Char.ofNat 125 :: rest)))]
            show (match parseJValue f (renderJ v
                    ++ (renderPairsTail ms2 ++ Char.ofNat 125 :: rest)) with
                  | none => none
                  | some (v2, r3) =>
                      match dropWs r3 with
                      | ',' :: r4 =>
                          match parseJPairs f r4 with
                          | some (ms3, r5) => some ((k, v2) :: ms3, r5)
                          | none => none
                      | c4 :: r4 =>
                          if c4 = Char.ofNat 125 then some ([(k, v2)], r4) else none
                      | [] => none) = some ((k, v) :: ms2, rest)
            rw [ihP v (renderPairsTail ms2 ++ Char.ofNat 125 :: rest)
              (by simp [jsizeObj] at hsz; omega) (numDelim_pairsTail ms2 rest)]
            cases ms2 with
            | nil => rfl
            | cons p2 ms3 =>
                obtain ⟨k2, v2⟩ := p2
                show (match dropWs (renderPairsTail ((k2, v2) :: ms3)
                        ++ Char.ofNat 125 :: rest) with
                      | ',' :: r4 =>
                          match parseJPairs f r4 with
                          | some (ms4, r5) => some ((k, v) :: ms4, r5)
                          | none => none
                      | c4 :: r4 =>
                          if c4 = Char.ofNat 125 then some ([(k, v)], r4) else none
                      | [] => none) = some ((k, v) :: (k2, v2) :: ms3, rest)
                rw [show renderPairsTail ((k2, v2) :: ms3) ++ Char.ofNat 125 :: rest
                    = ',' :: (renderPairs ((k2, v2) :: ms3) ++ Char.ofNat 125 :: rest) from by
                  simp [renderPairsTail, renderPairs]]
                rw [dropWs_cons_of_notWs _ (by decide)]
                show (match parseJPairs f (renderPairs ((k2, v2) :: ms3)
                        ++ Char.ofNat 125 :: rest) with
                      | some (ms4, r5) => some ((k, v) :: ms4, r5)
                      | none => none) = some ((k, v) :: (k2, v2) :: ms3, rest)
                rw [ihR ((k2, v2) :: ms3) rest (by simp [jsizeObj] at hsz ⊢; omega) (by simp)]

theorem intChars_ne_nil (i : Int) : intChars i ≠ [] := by
  unfold intChars
  have := natCharsAux_ne_nil (i.natAbs + 1) i.natAbs (by omega)
  intro h
  rcases List.append_eq_nil.mp h with ⟨_, h2⟩
  exact this h2

theorem jsize_le_render : ∀ n : Nat,
    (∀ v, jsize v ≤ n → jsize v ≤ (renderJ v).length) ∧
    (∀ es, jsizeArr es ≤ n → jsizeArr es ≤ (renderItemsTail es).length) ∧
    (∀ ms, jsizeObj ms ≤ n → jsizeObj ms ≤ (renderPairsTail ms).length) := by
  intro n
  induction n with
  | zero =>
      refine ⟨fun v h => ?_, fun es h => ?_, fun ms h => ?_⟩
      · cases v <;> simp [jsize] at h
      · cases es with
        | nil => simp [jsizeArr]
        | cons e es => simp [jsizeArr] at h
      · cases ms with
        | nil => simp [jsizeObj]
        | cons m ms =>
            obtain ⟨k, v⟩ := m
            simp [jsizeObj] at h
  | succ n ih =>
      obtain ⟨ihV, ihA, ihO⟩ := ih
      refine ⟨fun v h => ?_, fun es h => ?_, fun ms h => ?_⟩
      · cases v with
        | jnull => simp [jsize, renderJ]
        | jbool b => cases b <;> simp [jsize, renderJ]
        | jnum m =>
            have : intChars m ≠ [] := intChars_ne_nil m
            have : 1 ≤ (intChars m).length := by
              cases hc : intChars m with
              | nil => exact absurd hc this
              | cons a t => simp
            simpa [jsize, renderJ] using this
        | jstr s => simp [jsize, renderJ, quoteStr]
        | jarr es =>
            cases es with
            | nil => simp [jsize, jsizeArr, renderJ, renderItems]
            | cons e es2 =>
                have h1 : jsize e ≤ n := by simp [jsize, jsizeArr] at h; omega
                have h2 : jsizeArr es2 ≤ n := by simp [jsize, jsizeArr] at h; omega
                have b1 := ihV e h1
                have b2 := ihA es2 h2
                simp only [jsize, jsizeArr, renderJ, renderItems, List.length_cons,
                  List.length_append, List.length_singleton]
                omega
        | jobj ms =>
            cases ms with
            | nil => simp [jsize, jsizeObj, renderJ, renderPairs]
            | cons m ms2 =>
                obtain ⟨k, v⟩ := m
                have h1 : jsize v ≤ n := by simp [jsize, jsizeObj] at h; omega
                have h2 : jsizeObj ms2 ≤ n := by simp [jsize, jsizeObj] at h; omega
                have b1 := ihV v h1
                have b2 := ihO ms2 h2
                simp only [jsize, jsizeObj, renderJ, renderPairs, quoteStr, List.length_cons,
                  List.length_append, List.length_singleton]
                omega
      · cases es with
        | nil => simp [jsizeArr]
        | cons e es2 =>
            have h1 : jsize e ≤ n := by simp [jsizeArr] at h; omega
            have h2 : jsizeArr es2 ≤ n := by simp [jsizeArr] at h; omega
            have b1 := ihV e h1
            have b2 := ihA es2 h2
            simp only [jsizeArr, renderItemsTail, List.length_cons, List.length_append]
            omega
      · cases ms with
        | nil => simp [jsizeObj]
        | cons m ms2 =>
            obtain ⟨k, v⟩ := m
            have h1 : jsize v ≤ n := by simp [jsizeObj] at h; omega
            have h2 : jsizeObj ms2 ≤ n := by simp [jsizeObj] at h; omega
            have b1 := ihV v h1
            have b2 := ihO ms2 h2
            simp only [jsizeObj, renderPairsTail, quoteStr, List.length_cons,
              List.length_append, List.length_singleton]
            omega

/-- Round trip of the JSON codec: parsing a stringified value recovers it. -/
theorem jsonParse_stringify (v : JVal) : jsonParse (jsonStringify v) = some v := by
  have hlen : jsize v ≤ (renderJ v).length :=
    (jsize_le_render (jsize v)).1 v (Nat.le_refl _)
  have hmain := (parse_render_fuel ((renderJ v).length + 1)).1 v [] (by omega) rfl
  rw [List.append_nil] at hmain
  unfold jsonParse jsonStringify
  rw [show (String.mk (renderJ v)).toList = renderJ v from rfl]
  rw [show (String.mk (renderJ v)).length = (renderJ v).length from rfl]
  rw [hmain]
  rfl

/-! ## State codec (`src/utils/crypto.ts`) -/

/-- Value of `CONFIG.STATE_EXPIRATION` in `src/config.ts`: ten minutes in ms. -/
def STATE_EXPIRATION : Nat := 600000

/-- The object literal built by `encodeState` at time `now`. -/
def stateJson (app_id provider redirect nonce : String) (now : Nat) : JVal :=
  .jobj [("app_id", .jstr app_id), ("provider", .jstr provider),
    ("redirect", .jstr redirect), ("nonce", .jstr nonce), ("timestamp", .jnum now)]

/-- Model of `encodeState`: `btoa(JSON.stringify({...}))` with `Date.now()`
passed explicitly; `none` models the `btoa` exception on non-latin-1 input. -/
def encodeStateAt (now : Nat) (app_id provider redirect nonce : String) : Option String :=
  btoa (jsonStringify (stateJson app_id provider redirect nonce now))

/-- Last-binding lookup in an object member list (a later duplicate key wins,
as in a JavaScript object built by `JSON.parse`). -/
def lastAssoc (k : String) : List (String × JVal) → Option JVal
  | [] => none
  | (k2, v) :: ms =>
      match lastAssoc k ms with
      | some v2 => some v2
      | none => if k2 = k then some v else none

/-- Property access `v[k]`; `none` models `undefined`. -/
def getField (v : JVal) (k : String) : Option JVal :=
  match v with
  | .jobj ms => lastAssoc k ms
  | _ => none

/-- JavaScript truthiness of a parsed JSON value. -/
def jsTruthy : JVal → Bool
  | .jnull => false
  | .jbool b => b
  | .jnum n => n != 0
  | .jstr s => s != ""
  | .jarr _ => true
  | .jobj _ => true

/-- Truthiness of a possibly-absent field (`undefined` is falsy). -/
def truthyOpt : Option JVal → Bool
  | some v => jsTruthy v
  | none => false

/-- Numeric coercion of a possibly-absent field, `none` modelling `NaN`.
String coercion is modelled for plain decimal-digit strings only; other
strings, arrays and objects are modelled as `NaN` (the code only compares
timestamps its own encoder wrote, which are numbers). -/
def jsToNumber : Option JVal → Option Int
  | none => none
  | some .jnull => some 0
  | some (.jbool b) => some (if b then 1 else 0)
  | some (.jnum n) => some n
  | some (.jstr s) =>
      if s.toList ≠ [] ∧ s.toList.all isDigitC then some (digitsVal s.toList) else none
  | some (.jarr _) => none
  | some (.jobj _) => none

/-- Expiry test `Date.now() - decoded.timestamp > CONFIG.STATE_EXPIRATION`;
a `NaN` difference compares false. -/
def stateExpired (now : Nat) (tsv : Option JVal) : Bool :=
  match jsToNumber tsv with
  | some t => decide ((now : Int) - t > (STATE_EXPIRATION : Int))
  | none => false

/-- Field validation and expiry check of `decodeState` after parsing, in the
order the code performs them. -/
def validateStateObj (now : Nat) (decoded : JVal) : Option JVal :=
  if !truthyOpt (getField decoded "app_id") || !truthyOpt (getField decoded "provider")
      || !truthyOpt (getField decoded "redirect") || !truthyOpt (getField decoded "nonce")
      || !truthyOpt (getField decoded "timestamp") then none
  else if stateExpired now (getField decoded "timestamp") then none
  else some decoded

/-- Parse stage of `decodeState`: `JSON.parse(atob(stateStr))`, `none` when
either throws. -/
def stateParse (stateStr : String) : Option JVal :=
  (atob stateStr).bind jsonParse

/-- Model of `decodeState` at explicit time `now`. -/
def decodeStateAt (now : Nat) (stateStr : String) : Option JVal :=
  (stateParse stateStr).bind (validateStateObj now)

/-! ### Latin-1 bound on rendered state objects -/

theorem hexChar_latin1 (k : Nat) (h : k < 16) : (toHexChar k).toNat < 256 := by
  interval_cases k <;> decide

theorem escapeChar_latin1 {c : Char} (h : c.toNat < 256) :
    ∀ d ∈ escapeChar c, d.toNat < 256 := by
  intro d hd
  unfold escapeChar at hd
  split at hd
  · simp only [List.mem_cons, List.not_mem_nil, or_false] at hd
    rcases hd with rfl | rfl <;> decide
  split at hd
  · simp only [List.mem_cons, List.not_mem_nil, or_false] at hd
    rcases hd with rfl | rfl <;> decide
  split at hd
  · simp only [List.mem_cons, List.not_mem_nil, or_false] at hd
    rcases hd with rfl | rfl <;> decide
  split at hd
  · simp only [List.mem_cons, List.not_mem_nil, or_false] at hd
    rcases hd with rfl | rfl <;> decide
  split at hd
  · simp only [List.mem_cons, List.not_mem_nil, or_false] at hd
    rcases hd with rfl | rfl <;> decide
  split at hd
  · simp only [List.mem_cons, List.not_mem_nil, or_false] at hd
    rcases hd with rfl | rfl <;> decide
  split at hd
  · simp only [List.mem_cons, List.not_mem_nil, or_false] at hd
    rcases hd with rfl | rfl <;> decide
  split at hd
  · simp only [List.mem_cons, List.not_mem_nil, or_false] at hd
    rcases hd with rfl | rfl | rfl | rfl | rfl | rfl
    · decide
    · decide
    · decide
    · decide
    · exact hexChar_latin1 _ (by omega)
    · exact hexChar_latin1 _ (by omega)
  · simp only [List.mem_cons, List.not_mem_nil, or_false] at hd
    subst hd
    exact h

theorem quoteStr_latin1 {s : String} (h : ∀ c ∈ s.toList, c.toNat < 256) :
    ∀ d ∈ quoteStr s, d.toNat < 256 := by
  intro d hd
  unfold quoteStr at hd
  rcases List.mem_cons.mp hd with rfl | hd
  · decide
  rcases List.mem_append.mp hd with hd | hd
  · obtain ⟨c, hc, hdc⟩ := List.mem_flatMap.mp hd
    exact escapeChar_latin1 (h c hc) d hdc
  · simp only [List.mem_singleton] at hd
    subst hd
    decide

theorem intChars_latin1 (i : Int) : ∀ c ∈ intChars i, c.toNat < 256 := by
  intro c hc
  unfold intChars at hc
  rcases List.mem_append.mp hc with hc | hc
  · split at hc
    · simp only [List.mem_singleton] at hc
      subst hc
      decide
    · simp at hc
  · have hd := natCharsAux_digits (i.natAbs + 1) i.natAbs (by omega) c hc
    have := digit_toNat hd
    omega

theorem latin1_app {l1 l2 : List Char} (h1 : ∀ d ∈ l1, d.toNat < 256)
    (h2 : ∀ d ∈ l2, d.toNat < 256) : ∀ d ∈ l1 ++ l2, d.toNat < 256 := by
  intro d hd
  rcases List.mem_append.mp hd with hd | hd
  · exact h1 d hd
  · exact h2 d hd

theorem latin1_cons {c : Char} {l : List Char} (h1 : c.toNat < 256)
    (h2 : ∀ d ∈ l, d.toNat < 256) : ∀ d ∈ c :: l, d.toNat < 256 := by
  intro d hd
  rcases List.mem_cons.mp hd with rfl | hd
  · exact h1
  · exact h2 d hd

theorem stateJson_latin1 (a p r n : String) (t : Nat)
    (ha : ∀ c ∈ a.toList, c.toNat < 256) (hp : ∀ c ∈ p.toList, c.toNat < 256)
    (hr : ∀ c ∈ r.toList, c.toNat < 256) (hn : ∀ c ∈ n.toList, c.toNat < 256) :
    ∀ c ∈ (jsonStringify (stateJson a p r n t)).toList, c.toNat < 256 := by
  intro c hc
  have hc2 : c ∈ renderJ (stateJson a p r n t) := hc
  rw [show renderJ (stateJson a p r n t)
      = Char.ofNat 123 :: (renderPairs [("app_id", .jstr a), ("provider", .jstr p),
        ("redirect", .jstr r), ("nonce", .jstr n), ("timestamp", .jnum t)]
        ++ [Char.ofNat 125]) from rfl] at hc2
  have hkeys : ∀ k : String, k ∈ (["app_id", "provider", "redirect", "nonce",
      "timestamp"] : List String) → ∀ d ∈ quoteStr k, d.toNat < 256 := by decide
  have hexpand : renderPairs [(("app_id" : String), JVal.jstr a),
      (("provider" : String), .jstr p), (("redirect" : String), .jstr r),
      (("nonce" : String), .jstr n), (("timestamp" : String), .jnum (t : Int))]
      = quoteStr "app_id" ++ ':' :: renderJ (.jstr a)
        ++ ',' :: (quoteStr "provider" ++ ':' :: renderJ (.jstr p))
        ++ ',' :: (quoteStr "redirect" ++ ':' :: renderJ (.jstr r))
        ++ ',' :: (quoteStr "nonce" ++ ':' :: renderJ (.jstr n))
        ++ ',' :: (quoteStr "timestamp" ++ ':' :: renderJ (.jnum (t : Int))) := by
    simp [renderPairs, renderPairsTail]
  have block : ∀ (k : String) (v : JVal), (∀ d ∈ quoteStr k, d.toNat < 256) →
      (∀ d ∈ renderJ v, d.toNat < 256) →
      ∀ d ∈ quoteStr k ++ ':' :: renderJ v, d.toNat < 256 :=
    fun k v h1 h2 => latin1_app h1 (latin1_cons (by decide) h2)
  refine latin1_cons (by decide) (latin1_app ?_ ?_) c hc2
  · rw [hexpand]
    exact latin1_app (latin1_app (latin1_app (latin1_app
      (block _ _ (hkeys "app_id" (by simp)) (quoteStr_latin1 ha))
      (latin1_cons (by decide) (block _ _ (hkeys "provider" (by simp)) (quoteStr_latin1 hp))))
      (latin1_cons (by decide) (block _ _ (hkeys "redirect" (by simp)) (quoteStr_latin1 hr))))
      (latin1_cons (by decide) (block _ _ (hkeys "nonce" (by simp)) (quoteStr_latin1 hn))))
      (latin1_cons (by decide) (block _ _ (hkeys "timestamp" (by simp))
        (intChars_latin1 (t : Int))))
  · intro d hd
    simp only [List.mem_singleton] at hd
    subst hd
    decide

set_option maxHeartbeats 1000000 in
/-- Core round trip of the state codec: encoding at `now1` and decoding at
`now2` yields the state object exactly when the age is within the window. -/
theorem decode_encode_core (now1 now2 : Nat) (a p r n : String)
    (ha : ∀ c ∈ a.toList, c.toNat < 256) (hp : ∀ c ∈ p.toList, c.toNat < 256)
    (hr : ∀ c ∈ r.toList, c.toNat < 256) (hn : ∀ c ∈ n.toList, c.toNat < 256)
    (ha2 : a ≠ "") (hp2 : p ≠ "") (hr2 : r ≠ "") (hn2 : n ≠ "") (h0 : 0 < now1) :
    (encodeStateAt now1 a p r n).bind (decodeStateAt now2)
      = if (now2 : Int) - (now1 : Int) > (STATE_EXPIRATION : Int) then none
        else some (stateJson a p r n now1) := by
  have hchars := stateJson_latin1 a p r n now1 ha hp hr hn
  have hall : (jsonStringify (stateJson a p r n now1)).toList.all
      (fun c => c.toNat < 256) = true := by
    rw [List.all_eq_true]
    intro c hc
    exact decide_eq_true (hchars c hc)
  have henc : btoa (jsonStringify (stateJson a p r n now1))
      = some (String.mk (b64EncodeBytes
          ((jsonStringify (stateJson a p r n now1)).toList.map Char.toNat))) := by
    unfold btoa
    rw [if_pos hall]
  unfold encodeStateAt
  rw [henc]
  show decodeStateAt now2 _ = _
  unfold decodeStateAt stateParse
  rw [atob_btoa _ _ henc]
  show (jsonParse (jsonStringify (stateJson a p r n now1))).bind (validateStateObj now2) = _
  rw [jsonParse_stringify]
  show validateStateObj now2 (stateJson a p r n now1) = _
  unfold validateStateObj
  have hfa : getField (stateJson a p r n now1) "app_id" = some (.jstr a) := rfl
  have hfp : getField (stateJson a p r n now1) "provider" = some (.jstr p) := rfl
  have hfr : getField (stateJson a p r n now1) "redirect" = some (.jstr r) := rfl
  have hfn : getField (stateJson a p r n now1) "nonce" = some (.jstr n) := rfl
  have hft : getField (stateJson a p r n now1) "timestamp" = some (.jnum now1) := rfl
  rw [hfa, hfp, hfr, hfn, hft]
  have t1 : truthyOpt (some (JVal.jstr a)) = true := by
    simp [truthyOpt, jsTruthy]
    exact ha2
  have t2 : truthyOpt (some (JVal.jstr p)) = true := by
    simp [truthyOpt, jsTruthy]
    exact hp2
  have t3 : truthyOpt (some (JVal.jstr r)) = true := by
    simp [truthyOpt, jsTruthy]
    exact hr2
  have t4 : truthyOpt (some (JVal.jstr n)) = true := by
    simp [truthyOpt, jsTruthy]
    exact hn2
  have t5 : truthyOpt (some (JVal.jnum (now1 : Int))) = true := by
    simp [truthyOpt, jsTruthy]
    omega
  rw [t1, t2, t3, t4, t5]
  show (if stateExpired now2 (some (JVal.jnum (now1 : Int))) then none
        else some (stateJson a p r n now1)) = _
  have hse : stateExpired now2 (some (JVal.jnum (now1 : Int)))
      = decide ((now2 : Int) - (now1 : Int) > (STATE_EXPIRATION : Int)) := rfl
  rw [hse]
  by_cases hexp : (now2 : Int) - (now1 : Int) > (STATE_EXPIRATION : Int)
  · simp [hexp]
  · simp [hexp]

/-! ## Plans (`src/plans.ts`) -/

/-- Subscription plan tiers. -/
inductive PlanType where
  | free
  | pro
  | business
  | enterprise
deriving DecidableEq, Repr

/-- Per-plan limits; `apps = none` models `'unlimited'`. -/
structure PlanLimits where
  daily : Nat
  monthly : Nat
  apps : Option Nat
deriving DecidableEq, Repr

/-- The `PLAN_CONFIG` table. -/
def PLAN_CONFIG : PlanType → PlanLimits
  | .free => ⟨200, 6000, some 1⟩
  | .pro => ⟨5000, 150000, some 10⟩
  | .business => ⟨50000, 1500000, none⟩
  | .enterprise => ⟨100000, 3000000, none⟩

/-- The fixed plan hierarchy used by `getRecommendedPlan`. -/
def planHierarchy : List PlanType := [.free, .pro, .business, .enterprise]

/-- Model of `getRecommendedPlan`: position in the hierarchy, `null` when the
plan is unknown or already at the top, otherwise the next entry. -/
def getRecommendedPlan (currentPlan : PlanType) : Option PlanType :=
  match planHierarchy.findIdx? (fun q => q == currentPlan) with
  | none => none
  | some i =>
      if i = planHierarchy.length - 1 then none
      else planHierarchy.get? (i + 1)

/-- Model of `canCreateApp`. -/
def canCreateApp (plan : PlanType) (currentAppCount : Nat) : Bool :=
  match (PLAN_CONFIG plan).apps with
  | none => true
  | some limit => currentAppCount < limit

/-! ## Usage ledger (`src/utils/usage.ts`) -/

/-- A developer's usage counters for the current day and month. -/
structure UsageStats where
  daily : Nat
  monthly : Nat
deriving DecidableEq, Repr

/-- Result record of `checkLimits`. -/
structure LimitCheckResult where
  allowed : Bool
  reason : Option String
  required_plan : Option PlanType
  current_usage : UsageStats
deriving DecidableEq, Repr

/-- Model of `checkLimits` with the KV-read usage passed explicitly: the daily
bound is tested first, then the monthly bound. -/
def checkLimits (usage : UsageStats) (plan : PlanType) : LimitCheckResult :=
  let limits := PLAN_CONFIG plan
  if usage.daily ≥ limits.daily then
    ⟨false, some "Daily limit exceeded", getRecommendedPlan plan, usage⟩
  else if usage.monthly ≥ limits.monthly then
    ⟨false, some "Monthly limit exceeded", getRecommendedPlan plan, usage⟩
  else
    ⟨true, none, none, usage⟩

/-- Model of `incrementUsage` at counter level: both counters are read and
written back incremented by one. -/
def incrementUsage (stats : UsageStats) : UsageStats :=
  ⟨stats.daily + 1, stats.monthly + 1⟩

/-- A row of the `developers` table as the plan fetch reads it; `plan` is
`none` when the column is null or empty (JavaScript-falsy). -/
structure DeveloperRow where
  plan : Option String
deriving DecidableEq, Repr

/-- Outcome of the plan fetch against the backing store. -/
inductive PlanFetchResult where
  | fetchError
  | httpNotOk
  | httpOk (developers : List DeveloperRow)
deriving DecidableEq, Repr

/-- Resolution result of `getDeveloperPlan`: the returned plan name and the
cache write it performs, if any (value and TTL in seconds). -/
structure PlanResolution where
  plan : String
  cachePut : Option (String × Nat)
deriving DecidableEq, Repr

/-- The candidate plan names accepted from cache. -/
def planNames : List String := ["free", "pro", "business", "enterprise"]

/-- JavaScript `a || b` on an optional string: the default wins when the value
is absent or empty. -/
def jsOrStr (o : Option String) (dflt : String) : String :=
  match o with
  | some s => if s = "" then dflt else s
  | none => dflt

/-- Model of `getDeveloperPlan` with the cache read and fetch outcome passed
explicitly: a valid cached plan is returned as is; otherwise a fetched row
yields its plan (defaulted to `free`) which is cached for 300 seconds; any
failure or missing row falls back to `free` with no cache write. -/
def getDeveloperPlan (cached : Option String) (fetched : PlanFetchResult) : PlanResolution :=
  let fromFetch : PlanResolution :=
    match fetched with
    | .httpOk (d :: _) =>
        let plan := jsOrStr d.plan "free"
        ⟨plan, some (plan, 300)⟩
    | .httpOk [] => ⟨"free", none⟩
    | .httpNotOk => ⟨"free", none⟩
    | .fetchError => ⟨"free", none⟩
  match cached with
  | some c => if c ≠ "" ∧ planNames.contains c then ⟨c, none⟩ else fromFetch
  | none => fromFetch

/-! ## Provider adapters: `normalizeUser` (`src/providers`) -/

/-- The normalised user shape (`NormalizedUser` in `src/types.ts`); optional
fields model the `?` members, `gender = none` models `undefined`. -/
structure NormalizedUser where
  provider : String
  openid : String
  unionid : Option String
  nickname : String
  avatar : Option String
  gender : Option String
deriving DecidableEq, Repr

/-- A well-formed WeChat user-info payload. -/
structure WeChatRaw where
  openid : String
  unionid : Option String
  nickname : Option String
  headimgurl : Option String
  sex : Option Int
deriving DecidableEq, Repr

/-- Model of `WeChatProvider.normalizeUser`. -/
def wechatNormalizeUser (raw : WeChatRaw) : NormalizedUser :=
  { provider := "wechat"
    openid := raw.openid
    unionid := raw.unionid
    nickname := jsOrStr raw.nickname "微信用户"
    avatar := raw.headimgurl
    gender := some (if raw.sex = some 1 then "male"
      else if raw.sex = some 2 then "female" else "unknown") }

/-- A well-formed QQ user-info payload (merged with the token openid). -/
structure QQRaw where
  openid : String
  unionid : Option String
  nickname : Option String
  figureurl_qq_2 : Option String
  figureurl_qq_1 : Option String
  figureurl : Option String
  gender : Option String
deriving DecidableEq, Repr

/-- JavaScript `a || b` chaining on optional strings, `none` when every
alternative is absent or empty. -/
def jsOrOpt (o1 o2 : Option String) : Option String :=
  match o1 with
  | some s => if s = "" then o2 else some s
  | none => o2

/-- Model of `QQProvider.normalizeUser`. -/
def qqNormalizeUser (raw : QQRaw) : NormalizedUser :=
  { provider := "qq"
    openid := raw.openid
    unionid := raw.unionid
    nickname := jsOrStr raw.nickname "QQ用户"
    avatar := jsOrOpt raw.figureurl_qq_2 (jsOrOpt raw.figureurl_qq_1 raw.figureurl)
    gender := some (if raw.gender = some "男" then "male"
      else if raw.gender = some "女" then "female" else "unknown") }

/-- A well-formed Douyin user-info payload. -/
structure DouyinRaw where
  open_id : Option String
  openid : Option String
  union_id : Option String
  nickname : Option String
  avatar : Option String
  gender : Option Int
deriving DecidableEq, Repr

/-- Model of `DouyinProvider.normalizeUser`; the openid falls back from
`open_id` to `openid`. -/
def douyinNormalizeUser (raw : DouyinRaw) : NormalizedUser :=
  { provider := "douyin"
    openid := jsOrStr (jsOrOpt raw.open_id raw.openid) ""
    unionid := raw.union_id
    nickname := jsOrStr raw.nickname "抖音用户"
    avatar := raw.avatar
    gender := some (if raw.gender = some 1 then "male"
      else if raw.gender = some 2 then "female" else "unknown") }

/-- A well-formed DingTalk user payload. -/
structure DingTalkRaw where
  openId : Option String
  unionId : Option String
  nick : Option String
  name : Option String
  avatarUrl : Option String
deriving DecidableEq, Repr

/-- Model of `DingTalkProvider.normalizeUser`; note that no gender field is
ever produced. -/
def dingtalkNormalizeUser (raw : DingTalkRaw) : NormalizedUser :=
  { provider := "dingtalk"
    openid := jsOrStr (jsOrOpt raw.openId raw.unionId) ""
    unionid := raw.unionId
    nickname := jsOrStr (jsOrOpt raw.nick raw.name) "钉钉用户"
    avatar := raw.avatarUrl
    gender := none }

/-- A well-formed Weibo user payload. -/
structure WeiboRaw where
  id : Option String
  idstr : Option String
  screen_name : Option String
  avatar_large : Option String
  avatar_hd : Option String
  profile_image_url : Option String
  gender : Option String
deriving DecidableEq, Repr

/-- Model of `WeiboProvider.normalizeUser`. -/
def weiboNormalizeUser (raw : WeiboRaw) : NormalizedUser :=
  { provider := "weibo"
    openid := jsOrStr (jsOrOpt raw.id raw.idstr) ""
    unionid := none
    nickname := jsOrStr raw.screen_name "微博用户"
    avatar := jsOrOpt raw.avatar_large (jsOrOpt raw.avatar_hd raw.profile_image_url)
    gender := some (if raw.gender = some "m" then "male"
      else if raw.gender = some "f" then "female" else "unknown") }

/-- A well-formed Alipay user payload (`user_id` is present). -/
structure AlipayRaw where
  user_id : String
  nick_name : Option String
  avatar : Option String
  gender : Option String
deriving DecidableEq, Repr

/-- Model of `AlipayProvider.normalizeUser`: the display-name fallback embeds
the last four characters of the user id, the avatar defaults to the empty
string, and an unrecognised gender yields `undefined`. -/
def alipayNormalizeUser (raw : AlipayRaw) : NormalizedUser :=
  { provider := "alipay"
    openid := raw.user_id
    unionid := none
    nickname := jsOrStr raw.nick_name ("支付宝用户" ++ String.mk (raw.user_id.toList.drop
      (raw.user_id.toList.length - 4)))
    avatar := some (jsOrStr raw.avatar "")
    gender := if raw.gender = some "M" then some "male"
      else if raw.gender = some "F" then some "female" else none }

/-! ## Alipay request signing (`src/providers/alipay.ts`) -/

/-- Code-point lexicographic order on character lists, the order in which
`Object.keys(params).sort()` arranges parameter names. -/
def lexLe : List Char → List Char → Bool
  | [], _ => true
  | _ :: _, [] => false
  | a :: as, b :: bs =>
      if a.toNat < b.toNat then true
      else if b.toNat < a.toNat then false
      else lexLe as bs

/-- Key order on parameter pairs. -/
def keyLe (kv1 kv2 : String × String) : Prop :=
  lexLe kv1.1.toList kv2.1.toList = true

instance : DecidableRel keyLe := fun a b =>
  instDecidableEqBool (lexLe a.1.toList b.1.toList) true

theorem lexLe_total_aux : ∀ x y : List Char, lexLe x y = true ∨ lexLe y x = true := by
  intro x
  induction x with
  | nil => intro y; left; rfl
  | cons a as ih =>
      intro y
      cases y with
      | nil => right; rfl
      | cons b bs =>
          by_cases h1 : a.toNat < b.toNat
          · left
            simp [lexLe, h1]
          by_cases h2 : b.toNat < a.toNat
          · right
            simp [lexLe, h2, h1]
          · rcases ih bs with h | h
            · left
              simp [lexLe, h1, h2, h]
            · right
              simp [lexLe, h1, h2, h]

theorem lexLe_trans_aux : ∀ x y z : List Char,
    lexLe x y = true → lexLe y z = true → lexLe x z = true := by
  intro x
  induction x with
  | nil => intro y z _ _; rfl
  | cons a as ih =>
      intro y z hxy hyz
      cases y with
      | nil => simp [lexLe] at hxy
      | cons b bs =>
          cases z with
          | nil => simp [lexLe] at hyz
          | cons c cs =>
              simp only [lexLe] at hxy hyz ⊢
              by_cases hab : a.toNat < b.toNat
              · by_cases hbc : b.toNat < c.toNat
                · simp [show a.toNat < c.toNat by omega]
                · by_cases hcb : c.toNat < b.toNat
                  · simp [hbc, hcb] at hyz
                  · simp [show a.toNat < c.toNat by omega]
              · by_cases hba : b.toNat < a.toNat
                · simp [hab, hba] at hxy
                · have hab2 : a.toNat = b.toNat := by omega
                  by_cases hbc : b.toNat < c.toNat
                  · simp [show a.toNat < c.toNat by omega]
                  · by_cases hcb : c.toNat < b.toNat
                    · simp [hbc, hcb] at hyz
                    · have hxy2 : lexLe as bs = true := by simpa [hab, hba] using hxy
                      have hyz2 : lexLe bs cs = true := by simpa [hbc, hcb] using hyz
                      simp [show ¬a.toNat < c.toNat by omega,
                        show ¬c.toNat < a.toNat by omega, ih bs cs hxy2 hyz2]

theorem char_eq_of_toNat_eq {a b : Char} (h : a.toNat = b.toNat) : a = b := by
  have h1 : Char.ofNat a.toNat = Char.ofNat b.toNat := by rw [h]
  rwa [Char.ofNat_toNat, Char.ofNat_toNat] at h1

theorem lexLe_antisymm_aux : ∀ x y : List Char,
    lexLe x y = true → lexLe y x = true → x = y := by
  intro x
  induction x with
  | nil =>
      intro y _ hyx
      cases y with
      | nil => rfl
      | cons b bs => simp [lexLe] at hyx
  | cons a as ih =>
      intro y hxy hyx
      cases y with
      | nil => simp [lexLe] at hxy
      | cons b bs =>
          simp only [lexLe] at hxy hyx
          by_cases hab : a.toNat < b.toNat
          · simp [show ¬b.toNat < a.toNat by omega, hab] at hyx
          · by_cases hba : b.toNat < a.toNat
            · simp [hab, hba] at hxy
            · have hab2 : a = b := char_eq_of_toNat_eq (by omega)
              subst hab2
              have hxy2 : lexLe as bs = true := by simpa [hab] using hxy
              have hyx2 : lexLe bs as = true := by simpa [hab] using hyx
              rw [ih bs hxy2 hyx2]

instance : IsTotal (String × String) keyLe :=
  ⟨fun a b => lexLe_total_aux a.1.toList b.1.toList⟩

instance : IsTrans (String × String) keyLe :=
  ⟨fun a b c => lexLe_trans_aux a.1.toList b.1.toList c.1.toList⟩

/-- Key sort of a parameter list: a stable sort by code-point key order. -/
def sortParams (params : List (String × String)) : List (String × String) :=
  List.insertionSort keyLe params

/-- Join with `&`, as the canonical Alipay signing string is assembled. -/
def ampJoin : List String → String
  | [] => ""
  | [s] => s
  | s :: rest => s ++ "&" ++ ampJoin rest

/-- Canonical signing content: keys sorted, `key=value` pairs joined by `&`. -/
def signContentOf (params : List (String × String)) : String :=
  ampJoin ((sortParams params).map (fun kv => kv.1 ++ "=" ++ kv.2))

/-- An idealised deterministic signature scheme standing for RSA-SHA256 with a
fixed key pair: verification accepts exactly the signature bytes of the
message, and distinct messages have distinct signatures. -/
structure SigScheme where
  sign : String → List Nat
  verify : String → List Nat → Bool
  sign_bytes : ∀ m, ∀ b ∈ sign m, b < 256
  verify_eq : ∀ m s, verify m s = decide (s = sign m)
  sign_inj : ∀ m1 m2, sign m1 = sign m2 → m1 = m2

/-- Model of `AlipayProvider.signRequest`: canonicalise all given parameters,
sign, base64-encode. -/
def signRequest (scheme : SigScheme) (params : List (String × String)) : String :=
  String.mk (b64EncodeBytes (scheme.sign (signContentOf params)))

/-- Model of `AlipayProvider.verifySignature`: drop `sign` and `sign_type`,
canonicalise, base64-decode the signature and verify; any decoding failure is
caught and yields `false`. -/
def verifySignature (scheme : SigScheme) (params : List (String × String))
    (signature : String) : Bool :=
  let verifyParams := params.filter (fun kv => kv.1 != "sign" && kv.1 != "sign_type")
  match b64DecodeBytes signature.toList with
  | some bytes => scheme.verify (signContentOf verifyParams) bytes
  | none => false

/-- The parameter set `AlipayProvider.exchangeCodeForToken` signs and sends. -/
def alipayTokenParams (client_id timestamp code : String) : List (String × String) :=
  [("app_id", client_id), ("method", "alipay.system.oauth.token"), ("format", "JSON"),
    ("charset", "utf-8"), ("sign_type", "RSA2"), ("timestamp", timestamp),
    ("version", "1.0"), ("grant_type", "authorization_code"), ("code", code)]

/-- Four-byte big-endian encoding of one character's code point. -/
def charBytes4 (c : Char) : List Nat :=
  [c.toNat / 16777216, c.toNat / 65536 % 256, c.toNat / 256 % 256, c.toNat % 256]

theorem char_toNat_lt (c : Char) : c.toNat < 4294967296 := by
  have h := UInt32.toNat_lt c.val
  have h2 : c.toNat = c.val.toNat := rfl
  omega

theorem charBytes4_lt (c : Char) : ∀ b ∈ charBytes4 c, b < 256 := by
  intro b hb
  have hc := char_toNat_lt c
  simp only [charBytes4, List.mem_cons, List.not_mem_nil, or_false] at hb
  rcases hb with rfl | rfl | rfl | rfl <;> omega

theorem charBytes4_inj_chunks : ∀ xs ys : List Char,
    xs.flatMap charBytes4 = ys.flatMap charBytes4 → xs = ys := by
  intro xs
  induction xs with
  | nil =>
      intro ys h
      cases ys with
      | nil => rfl
      | cons y ys => simp [charBytes4] at h
  | cons x xs ih =>
      intro ys h
      cases ys with
      | nil => simp [charBytes4] at h
      | cons y ys =>
          simp only [List.flatMap_cons, charBytes4, List.cons_append, List.nil_append,
            List.cons.injEq] at h
          obtain ⟨h1, h2, h3, h4, h5⟩ := h
          have hx := char_toNat_lt x
          have hy := char_toNat_lt y
          have heq : x.toNat = y.toNat := by omega
          rw [char_eq_of_toNat_eq heq, ih ys h5]

theorem toList_inj {s1 s2 : String} (h : s1.toList = s2.toList) : s1 = s2 := by
  rw [← mk_toList s1, ← mk_toList s2, h]

/-- A concrete instance of the idealised signature scheme, used to evaluate
the signing pipeline on concrete inputs. -/
def dummyScheme : SigScheme where
  sign m := m.toList.flatMap charBytes4
  verify m s := decide (s = m.toList.flatMap charBytes4)
  sign_bytes := by
    intro m b hb
    obtain ⟨c, _, hc⟩ := List.mem_flatMap.mp hb
    exact charBytes4_lt c b hc
  verify_eq := fun _ _ => rfl
  sign_inj := by
    intro m1 m2 h
    exact toList_inj (charBytes4_inj_chunks m1.toList m2.toList h)

/-! ### Canonical-string facts for the signing round trip -/

theorem amp_split : ∀ x1 x2 y1 y2 : List Char, '&' ∉ x1 → '&' ∉ x2 →
    x1 ++ '&' :: y1 = x2 ++ '&' :: y2 → x1 = x2 ∧ y1 = y2 := by
  intro x1
  induction x1 with
  | nil =>
      intro x2 y1 y2 _ hx2 h
      cases x2 with
      | nil => simpa using h
      | cons c cs =>
          simp only [List.nil_append, List.cons_append, List.cons.injEq] at h
          refine absurd ?_ hx2
          rw [← h.1]
          exact List.mem_cons_self _ _
  | cons a as ih =>
      intro x2 y1 y2 hx1 hx2 h
      cases x2 with
      | nil =>
          simp only [List.cons_append, List.nil_append, List.cons.injEq] at h
          refine absurd ?_ hx1
          rw [h.1]
          exact List.mem_cons_self _ _
      | cons b bs =>
          simp only [List.cons_append, List.cons.injEq] at h
          obtain ⟨rfl, h2⟩ := h
          have := ih bs y1 y2 (fun hm => hx1 (List.mem_cons_of_mem _ hm))
            (fun hm => hx2 (List.mem_cons_of_mem _ hm)) h2
          exact ⟨by rw [this.1], this.2⟩

theorem toList_append (s1 s2 : String) : (s1 ++ s2).toList = s1.toList ++ s2.toList := by
  cases s1
  cases s2
  rfl

theorem ampJoin_inj : ∀ l1 l2 : List String, (∀ s ∈ l1, '&' ∉ s.toList) →
    (∀ s ∈ l2, '&' ∉ s.toList) → l1.length = l2.length →
    ampJoin l1 = ampJoin l2 → l1 = l2 := by
  intro l1
  induction l1 with
  | nil =>
      intro l2 _ _ hlen _
      cases l2 with
      | nil => rfl
      | cons s l2 => simp at hlen
  | cons s1 r1 ih =>
      intro l2 h1 h2 hlen heq
      cases l2 with
      | nil => simp at hlen
      | cons s2 r2 =>
          cases r1 with
          | nil =>
              cases r2 with
              | nil =>
                  show ([s1] : List String) = [s2]
                  rw [show ampJoin [s1] = s1 from rfl, show ampJoin [s2] = s2 from rfl] at heq
                  rw [heq]
              | cons t2 r2 => simp at hlen
          | cons t1 r1 =>
              cases r2 with
              | nil => simp at hlen
              | cons t2 r2 =>
                  rw [show ampJoin (s1 :: t1 :: r1) = s1 ++ "&" ++ ampJoin (t1 :: r1) from rfl,
                    show ampJoin (s2 :: t2 :: r2) = s2 ++ "&" ++ ampJoin (t2 :: r2) from rfl]
                    at heq
                  have hl : (s1 ++ "&" ++ ampJoin (t1 :: r1)).toList
                      = s1.toList ++ '&' :: (ampJoin (t1 :: r1)).toList := by
                    rw [toList_append, toList_append, List.append_assoc]
                    rfl
                  have hr : (s2 ++ "&" ++ ampJoin (t2 :: r2)).toList
                      = s2.toList ++ '&' :: (ampJoin (t2 :: r2)).toList := by
                    rw [toList_append, toList_append, List.append_assoc]
                    rfl
                  have hlists := congrArg String.toList heq
                  rw [hl, hr] at hlists
                  obtain ⟨hs, hj⟩ := amp_split _ _ _ _ (h1 s1 (by simp)) (h2 s2 (by simp))
                    hlists
                  have hrest := ih (t2 :: r2) (fun s hs2 => h1 s (by simp [hs2]))
                    (fun s hs2 => h2 s (by simp [hs2])) (by simpa using hlen)
                    (toList_inj hj)
                  rw [toList_inj hs, hrest]

theorem pairs_eq_of_parts_eq : ∀ L1 L2 : List (String × String),
    L1.map Prod.fst = L2.map Prod.fst →
    L1.map (fun kv => kv.1 ++ "=" ++ kv.2) = L2.map (fun kv => kv.1 ++ "=" ++ kv.2) →
    L1 = L2 := by
  intro L1
  induction L1 with
  | nil =>
      intro L2 hk _
      cases L2 with
      | nil => rfl
      | cons p L2 => simp at hk
  | cons p1 R1 ih =>
      intro L2 hk hp
      cases L2 with
      | nil => simp at hk
      | cons p2 R2 =>
          obtain ⟨k1, v1⟩ := p1
          obtain ⟨k2, v2⟩ := p2
          simp only [List.map_cons, List.cons.injEq] at hk hp
          obtain ⟨hk1, hkrest⟩ := hk
          obtain ⟨hp1, hprest⟩ := hp
          subst hk1
          have hv : v1 = v2 := by
            have h2 := congrArg String.toList hp1
            rw [toList_append, toList_append, toList_append, toList_append] at h2
            have h3 := List.append_cancel_left h2
            have h4 : ('=' :: v1.toList : List Char) = '=' :: v2.toList := by
              simpa [show ("=" : String).toList = ['='] from rfl] using h3
            injection h4 with _ h5
            exact toList_inj h5
          rw [hv, ih R2 hkrest hprest]

theorem mem_unique_key : ∀ (L : List (String × String)), (L.map Prod.fst).Nodup →
    ∀ k v1 v2, (k, v1) ∈ L → (k, v2) ∈ L → v1 = v2 := by
  intro L
  induction L with
  | nil => intro _ k v1 v2 h1; simp at h1
  | cons p R ih =>
      intro hnd k v1 v2 h1 h2
      obtain ⟨kp, vp⟩ := p
      simp only [List.map_cons, List.nodup_cons] at hnd
      rcases List.mem_cons.mp h1 with he1 | h1tail
      · injection he1 with hk1 hv1
        rcases List.mem_cons.mp h2 with he2 | h2tail
        · injection he2 with hk2 hv2
          rw [hv1, hv2]
        · subst hk1
          exact absurd (List.mem_map.mpr ⟨(k, v2), h2tail, rfl⟩) hnd.1
      · rcases List.mem_cons.mp h2 with he2 | h2tail
        · injection he2 with hk2 hv2
          subst hk2
          exact absurd (List.mem_map.mpr ⟨(k, v1), h1tail, rfl⟩) hnd.1
        · exact ih hnd.2 k v1 v2 h1tail h2tail

/-- Key order as a relation on strings. -/
def strKeyLe (a b : String) : Prop := lexLe a.toList b.toList = true

instance : IsAntisymm String strKeyLe :=
  ⟨fun a b h1 h2 => toList_inj (lexLe_antisymm_aux a.toList b.toList h1 h2)⟩

theorem sortParams_keys_sorted (P : List (String × String)) :
    List.Sorted strKeyLe ((sortParams P).map Prod.fst) := by
  have hs : List.Pairwise keyLe (sortParams P) := List.sorted_insertionSort keyLe P
  exact List.Pairwise.map Prod.fst (fun a b h => h) hs

theorem sorted_keys_eq (P Q : List (String × String))
    (h : P.map Prod.fst = Q.map Prod.fst) :
    (sortParams P).map Prod.fst = (sortParams Q).map Prod.fst := by
  refine List.eq_of_perm_of_sorted ?_ (sortParams_keys_sorted P) (sortParams_keys_sorted Q)
  refine ((List.perm_insertionSort keyLe P).map Prod.fst).trans ?_
  rw [h]
  exact ((List.perm_insertionSort keyLe Q).map Prod.fst).symm

theorem sortParams_mem {P : List (String × String)} {kv : String × String} :
    kv ∈ sortParams P ↔ kv ∈ P :=
  (List.perm_insertionSort keyLe P).mem_iff

/-- Within a parameter set whose keys are unique and whose keys and values are
free of `&`, the canonical signing string pins down every value: replacing the
value at any position with a different one changes the string. -/
theorem signContent_ne_of_value_change (P : List (String × String)) (i : Nat)
    (hi : i < P.length) (v2 : String)
    (hnodup : (P.map Prod.fst).Nodup)
    (hampP : ∀ kv ∈ P, '&' ∉ kv.1.toList ∧ '&' ∉ kv.2.toList)
    (hampv : '&' ∉ v2.toList)
    (hne : v2 ≠ (P.get ⟨i, hi⟩).2) :
    signContentOf (P.set i ((P.get ⟨i, hi⟩).1, v2)) ≠ signContentOf P := by
  intro hEq
  set ki := (P.get ⟨i, hi⟩).1 with hki
  set Q := P.set i (ki, v2) with hQ
  have hkeys : Q.map Prod.fst = P.map Prod.fst := by
    apply List.ext_getElem
    · simp [hQ]
    · intro j h1 h2
      have hjP : j < P.length := by simpa using h2
      have hjQ : j < Q.length := by simpa [hQ] using hjP
      rw [List.getElem_map, List.getElem_map]
      rw [show Q[j] = if i = j then (ki, v2) else P[j] from List.getElem_set _]
      split
      · rename_i hij
        subst hij
        rfl
      · rfl
  have hQmem : ∀ kv ∈ Q, kv ∈ P ∨ kv = (ki, v2) := fun kv hkv =>
    List.mem_or_eq_of_mem_set hkv
  have hampQ : ∀ kv ∈ Q, '&' ∉ kv.1.toList ∧ '&' ∉ kv.2.toList := by
    intro kv hkv
    rcases hQmem kv hkv with h | rfl
    · exact hampP kv h
    · exact ⟨(hampP _ (List.getElem_mem hi)).1, hampv⟩
  have hparts : ∀ (L : List (String × String)),
      (∀ kv ∈ L, '&' ∉ kv.1.toList ∧ '&' ∉ kv.2.toList) →
      ∀ s ∈ (sortParams L).map (fun kv => kv.1 ++ "=" ++ kv.2), '&' ∉ s.toList := by
    intro L hL s hs
    obtain ⟨kv, hkv, rfl⟩ := List.mem_map.mp hs
    have hm := sortParams_mem.mp hkv
    intro hamp
    rw [toList_append, toList_append] at hamp
    rcases List.mem_append.mp hamp with hamp | hamp
    · rcases List.mem_append.mp hamp with hamp | hamp
      · exact (hL kv hm).1 hamp
      · simp [show ("=" : String).toList = ['='] from rfl] at hamp
    · exact (hL kv hm).2 hamp
  have hK : (sortParams Q).map Prod.fst = (sortParams P).map Prod.fst :=
    sorted_keys_eq Q P hkeys
  have hlen : ((sortParams Q).map (fun kv => kv.1 ++ "=" ++ kv.2)).length
      = ((sortParams P).map (fun kv => kv.1 ++ "=" ++ kv.2)).length := by
    simp only [List.length_map]
    have := congrArg List.length hK
    simpa using this
  have hmaps := ampJoin_inj _ _ (hparts Q hampQ) (hparts P hampP) hlen hEq
  have hsorted_eq : sortParams Q = sortParams P := pairs_eq_of_parts_eq _ _ hK hmaps
  have hold_mem : (ki, (P.get ⟨i, hi⟩).2) ∈ P := by
    have hmem := List.getElem_mem hi
    simp only [hki]
    exact hmem
  have hold_in_Q : (ki, (P.get ⟨i, hi⟩).2) ∈ Q := by
    rw [← sortParams_mem, hsorted_eq, sortParams_mem]
    exact hold_mem
  have hnew_in_Q : (ki, v2) ∈ Q := by
    have hiQ : i < Q.length := by simpa [hQ] using hi
    have hset : Q[i] = (ki, v2) := List.getElem_set_self _
    rw [← hset]
    exact List.getElem_mem _
  have hndQ : (Q.map Prod.fst).Nodup := by
    rw [hkeys]
    exact hnodup
  exact hne (mem_unique_key Q hndQ ki v2 (P.get ⟨i, hi⟩).2 hnew_in_Q hold_in_Q)

/-- Sign-then-verify succeeds for a parameter set containing neither a `sign`
nor a `sign_type` key. -/
theorem verify_signRequest_of_clean (scheme : SigScheme) (params : List (String × String))
    (hks : ∀ kv ∈ params, kv.1 ≠ "sign" ∧ kv.1 ≠ "sign_type") :
    verifySignature scheme params (signRequest scheme params) = true := by
  unfold verifySignature signRequest
  have hfil : params.filter (fun kv => kv.1 != "sign" && kv.1 != "sign_type") = params :=
    List.filter_eq_self.mpr (fun kv hkv => by
      simp [bne_iff_ne, (hks kv hkv).1, (hks kv hkv).2])
  rw [hfil]
  have hdec : b64DecodeBytes (String.mk (b64EncodeBytes
      (scheme.sign (signContentOf params)))).toList
      = some (scheme.sign (signContentOf params)) := by
    rw [show (String.mk (b64EncodeBytes (scheme.sign (signContentOf params)))).toList
        = b64EncodeBytes (scheme.sign (signContentOf params)) from rfl]
    exact b64DecodeBytes_encode _ (scheme.sign_bytes _)
  rw [hdec]
  show scheme.verify (signContentOf params) (scheme.sign (signContentOf params)) = true
  rw [scheme.verify_eq]
  simp

/-- Verification fails for any signature of a different canonical content. -/
theorem verify_fails_of_content_ne (scheme : SigScheme) (params : List (String × String))
    (m : String)
    (hne : signContentOf (params.filter (fun kv => kv.1 != "sign" && kv.1 != "sign_type")) ≠ m) :
    verifySignature scheme params (String.mk (b64EncodeBytes (scheme.sign m))) = false := by
  unfold verifySignature
  have hdec : b64DecodeBytes (String.mk (b64EncodeBytes (scheme.sign m))).toList
      = some (scheme.sign m) := by
    rw [show (String.mk (b64EncodeBytes (scheme.sign m))).toList
        = b64EncodeBytes (scheme.sign m) from rfl]
    exact b64DecodeBytes_encode _ (scheme.sign_bytes _)
  rw [hdec]
  show scheme.verify _ (scheme.sign m) = false
  rw [scheme.verify_eq]
  simp only [decide_eq_false_iff_not]
  intro h
  exact hne (scheme.sign_inj _ _ h.symm)

/-! ## Gateway handlers (`src/router.ts`) -/

/-- A provider entry of an app's configuration (only the fields the handlers
read). -/
structure ProviderConfigM where
  provider : String
  enabled : Bool
deriving DecidableEq, Repr

/-- An app configuration (only the fields the handlers read). -/
structure AppConfigM where
  developer_id : String
  providers : List ProviderConfigM
deriving DecidableEq, Repr

/-- Names registered in `src/providers/registry.ts`. -/
def registryProviders : List String :=
  ["wechat", "qq", "douyin", "dingtalk", "weibo", "alipay"]

/-- Truth of `getProvider(name) !== null`. -/
def getProviderSupported (name : String) : Bool := registryProviders.contains name

/-- Observable steps of the login leg, in execution order. -/
inductive LoginEvent where
  | configLookup
  | planLookup
  | limitCheckRun
  | buildAuthUrlCall
  | providerRedirect
deriving DecidableEq, Repr

/-- Responses the login handler can produce (bodies abbreviated to the fields
the design fixes). -/
inductive LoginResponse where
  | errorJson (error : String) (status : Nat)
  | limitJson (error : String) (current_plan : PlanType) (required_plan : Option PlanType)
      (current_usage : UsageStats) (status : Nat)
  | redirect (status : Nat)
deriving DecidableEq, Repr

/-- Truthiness of an optional query parameter (absent or empty is falsy). -/
def presentParam : Option String → Bool
  | some s => s != ""
  | none => false

/-- Model of `handleLogin` over the outcomes of its reads: query parameters,
the app-config lookup, and the owner's plan and usage as the ledger reads
them. Returns the response and the event trace. -/
def handleLogin (app_id provider redirect : Option String) (appConfig : Option AppConfigM)
    (plan : PlanType) (usage : UsageStats) : LoginResponse × List LoginEvent :=
  if !presentParam app_id || !presentParam provider || !presentParam redirect then
    (.errorJson "missing_params" 400, [])
  else
    match appConfig with
    | none => (.errorJson "invalid_app" 404, [.configLookup])
    | some cfg =>
        if !(checkLimits usage plan).allowed then
          (.limitJson "LIMIT_EXCEEDED" plan (checkLimits usage plan).required_plan usage 429,
            [.configLookup, .planLookup, .limitCheckRun])
        else
          match cfg.providers.find? (fun p => p.provider == provider.getD "") with
          | none => (.errorJson "invalid_provider" 404,
              [.configLookup, .planLookup, .limitCheckRun])
          | some pc =>
              if !pc.enabled then (.errorJson "provider_disabled" 403,
                [.configLookup, .planLookup, .limitCheckRun])
              else if !getProviderSupported (provider.getD "") then
                (.errorJson "invalid_provider" 500,
                  [.configLookup, .planLookup, .limitCheckRun])
              else (.redirect 302,
                [.configLookup, .planLookup, .limitCheckRun, .buildAuthUrlCall,
                  .providerRedirect])

/-- Observable steps of the callback leg, in execution order. -/
inductive CbEvent where
  | exchangeCall
  | userInfoCall
  | resolveCall
  | usageIncrement
  | redirectIssued
deriving DecidableEq, Repr

/-- Responses the callback handler can produce. -/
inductive CallbackResponse where
  | errorJson (error : String) (status : Nat)
  | errorRedirect (error : String) (status : Nat)
  | appRedirect (status : Nat)
deriving DecidableEq, Repr

/-- Outcomes of the callback's external calls: the app-config lookup, the code
exchange, the user-info fetch and the identity-record resolution. -/
structure CallbackWorld where
  appConfig : Option AppConfigM
  exchangeOutcome : Except String Unit
  userInfoOutcome : Except String Unit
  resolveOutcome : Except String Unit
deriving Repr

/-- The provider name destructured from a decoded state object, `none` when
the field holds a non-string value (a non-string never compares equal to a
configured provider name). -/
def stateProviderName (state : JVal) : Option String :=
  match getField state "provider" with
  | some (.jstr s) => some s
  | _ => none

/-- The `catch` block of the callback: an error redirect when the app config
resolves, a JSON error otherwise. -/
def cbCatch (appConfig : Option AppConfigM) : CallbackResponse :=
  match appConfig with
  | some _ => .errorRedirect "oauth_failed" 302
  | none => .errorJson "oauth_failed" 500

/-- Model of `handleCallback` over the outcomes of its external calls,
returning the response, the final usage counters and the event trace. Usage is
incremented only after the exchange, the user-info fetch and the identity
resolution have all succeeded. -/
def handleCallback (code stateStr : Option String) (now : Nat) (world : CallbackWorld)
    (usage0 : UsageStats) : CallbackResponse × UsageStats × List CbEvent :=
  if !presentParam code || !presentParam stateStr then
    (.errorJson "missing_params" 400, usage0, [])
  else
    match decodeStateAt now (stateStr.getD "") with
    | none => (.errorJson "invalid_state" 400, usage0, [])
    | some state =>
        match world.appConfig with
        | none => (.errorJson "invalid_app" 404, usage0, [])
        | some cfg =>
            match cfg.providers.find? (fun p =>
                match stateProviderName state with
                | some s => p.provider == s
                | none => false) with
            | none => (.errorJson "invalid_provider" 400, usage0, [])
            | some _ =>
                if !(match stateProviderName state with
                    | some s => getProviderSupported s
                    | none => false) then
                  (.errorJson "invalid_provider" 400, usage0, [])
                else
                  match world.exchangeOutcome with
                  | .error _ => (cbCatch world.appConfig, usage0, [.exchangeCall])
                  | .ok _ =>
                      match world.userInfoOutcome with
                      | .error _ =>
                          (cbCatch world.appConfig, usage0, [.exchangeCall, .userInfoCall])
                      | .ok _ =>
                          match world.resolveOutcome with
                          | .error _ =>
                              (cbCatch world.appConfig, usage0,
                                [.exchangeCall, .userInfoCall, .resolveCall])
                          | .ok _ =>
                              (.appRedirect 302, incrementUsage usage0,
                                [.exchangeCall, .userInfoCall, .resolveCall, .usageIncrement,
                                  .redirectIssued])

/-! ## Claim theorems -/

/-- C7: `getRecommendedPlan` maps each plan to the next tier of the hierarchy
`free < pro < business < enterprise` and returns none at the top; in
particular `getRecommendedPlan free = pro` and
`getRecommendedPlan enterprise = none`. -/
theorem C7_recommended_plan_next_tier :
    getRecommendedPlan .free = some .pro
    ∧ getRecommendedPlan .pro = some .business
    ∧ getRecommendedPlan .business = some .enterprise
    ∧ getRecommendedPlan .enterprise = none := by
  decide

/-- C3: `checkLimits` tests the daily bound before the monthly bound; an owner
at or above the daily limit is denied with reason `Daily limit exceeded` and
the next tier as the required plan, regardless of the monthly count, and an
owner strictly below both bounds is allowed. -/
theorem C3_checkLimits_daily_first :
    ∀ (plan : PlanType) (usage : UsageStats),
      (usage.daily ≥ (PLAN_CONFIG plan).daily →
        checkLimits usage plan
          = ⟨false, some "Daily limit exceeded", getRecommendedPlan plan, usage⟩)
      ∧ (usage.daily < (PLAN_CONFIG plan).daily → usage.monthly < (PLAN_CONFIG plan).monthly →
        checkLimits usage plan = ⟨true, none, none, usage⟩) := by
  intro plan usage
  constructor
  · intro h
    unfold checkLimits
    rw [if_pos h]
  · intro h1 h2
    unfold checkLimits
    rw [if_neg (by omega), if_neg (by omega)]

/-- Witness for C3 at the plan table's free tier: an owner at 200 of 200 daily
is denied towards `pro` whatever the monthly count, an owner at 199 is
allowed. -/
theorem C3_checkLimits_daily_first_witness :
    checkLimits ⟨200, 0⟩ .free
      = ⟨false, some "Daily limit exceeded", some .pro, ⟨200, 0⟩⟩
    ∧ checkLimits ⟨199, 0⟩ .free = ⟨true, none, none, ⟨199, 0⟩⟩ :=
  ⟨((C3_checkLimits_daily_first .free ⟨200, 0⟩).1 (by decide)).trans (by decide),
    (C3_checkLimits_daily_first .free ⟨199, 0⟩).2 (by decide) (by decide)⟩

/-- C8: plan resolution fails closed: with no cached plan, a fetch error, a
non-success response or an empty result set resolves to `free` with no cache
write, while a fetched row's plan is returned and cached for 300 seconds. -/
theorem C8_plan_resolution_fail_closed :
    ∀ fetched : PlanFetchResult,
      ((fetched = .fetchError ∨ fetched = .httpNotOk ∨ fetched = .httpOk []) →
        getDeveloperPlan none fetched = ⟨"free", none⟩)
      ∧ (∀ d rest, fetched = .httpOk (d :: rest) →
        getDeveloperPlan none fetched
          = ⟨jsOrStr d.plan "free", some (jsOrStr d.plan "free", 300)⟩) := by
  intro fetched
  constructor
  · rintro (rfl | rfl | rfl) <;> rfl
  · rintro d rest rfl
    rfl

/-- Witness for C8: a failed fetch yields `free` and no cache write; a row
with plan `pro` yields `pro` cached for 300 seconds. -/
theorem C8_plan_resolution_fail_closed_witness :
    getDeveloperPlan none .fetchError = ⟨"free", none⟩
    ∧ getDeveloperPlan none (.httpOk [⟨some "pro"⟩]) = ⟨"pro", some ("pro", 300)⟩ :=
  ⟨(C8_plan_resolution_fail_closed .fetchError).1 (Or.inl rfl),
    ((C8_plan_resolution_fail_closed (.httpOk [⟨some "pro"⟩])).2 ⟨some "pro"⟩ [] rfl).trans
      (by decide)⟩

/-- C5: a login request for an owner whose daily count has reached the plan's
daily limit is answered with status 429, error `LIMIT_EXCEEDED`, the current
plan, the next tier as required plan and the current usage, and neither
`buildAuthURL` nor the provider redirect happens. -/
theorem C5_login_429_on_daily_limit (app_id provider redirect : String) (cfg : AppConfigM)
    (plan : PlanType) (usage : UsageStats)
    (hra : app_id ≠ "") (hrp : provider ≠ "") (hrr : redirect ≠ "")
    (hdaily : usage.daily ≥ (PLAN_CONFIG plan).daily) :
    (handleLogin (some app_id) (some provider) (some redirect) (some cfg) plan usage).1
      = .limitJson "LIMIT_EXCEEDED" plan (getRecommendedPlan plan) usage 429
    ∧ LoginEvent.buildAuthUrlCall
        ∉ (handleLogin (some app_id) (some provider) (some redirect) (some cfg) plan usage).2
    ∧ LoginEvent.providerRedirect
        ∉ (handleLogin (some app_id) (some provider) (some redirect) (some cfg) plan usage).2 := by
  have hcl : checkLimits usage plan
      = ⟨false, some "Daily limit exceeded", getRecommendedPlan plan, usage⟩ := by
    unfold checkLimits
    rw [if_pos hdaily]
  have hpp : ∀ s : String, s ≠ "" → presentParam (some s) = true := by
    intro s hs
    simp [presentParam, hs]
  unfold handleLogin
  simp only [hpp _ hra, hpp _ hrp, hpp _ hrr, hcl, Bool.not_true, Bool.or_self,
    Bool.not_false, Bool.false_or, Bool.or_false, if_false, if_true]
  norm_num
  decide

/-- Witness for C5 on the free plan at its daily limit. -/
theorem C5_login_429_on_daily_limit_witness :
    (handleLogin (some "app1") (some "wechat") (some "/cb")
        (some ⟨"dev1", [⟨"wechat", true⟩]⟩) .free ⟨200, 150⟩).1
      = .limitJson "LIMIT_EXCEEDED" .free (some .pro) ⟨200, 150⟩ 429
    ∧ LoginEvent.buildAuthUrlCall ∉ (handleLogin (some "app1") (some "wechat") (some "/cb")
        (some ⟨"dev1", [⟨"wechat", true⟩]⟩) .free ⟨200, 150⟩).2 := by
  have h := C5_login_429_on_daily_limit "app1" "wechat" "/cb" ⟨"dev1", [⟨"wechat", true⟩]⟩
    .free ⟨200, 150⟩ (by decide) (by decide) (by decide) (by decide)
  exact ⟨h.1.trans (by decide), h.2.1⟩

/-- C2: usage counters move only after a fully successful identity
resolution: if the code exchange, the user-info fetch or the identity-record
resolution fails, `incrementUsage` never runs and the counters are unchanged;
and on the login leg, the admission check is strictly earlier in the event
order than the provider redirect. -/
theorem C2_usage_increment_discipline :
    (∀ (code stateStr : Option String) (now : Nat) (world : CallbackWorld)
        (usage0 : UsageStats),
      ((∃ m, world.exchangeOutcome = .error m) ∨ (∃ m, world.userInfoOutcome = .error m)
        ∨ (∃ m, world.resolveOutcome = .error m)) →
      (handleCallback code stateStr now world usage0).2.1 = usage0
        ∧ CbEvent.usageIncrement ∉ (handleCallback code stateStr now world usage0).2.2)
    ∧ (∀ (app_id provider redirect : Option String) (appConfig : Option AppConfigM)
        (plan : PlanType) (usage : UsageStats),
      LoginEvent.providerRedirect
          ∈ (handleLogin app_id provider redirect appConfig plan usage).2 →
      LoginEvent.limitCheckRun
          ∈ (handleLogin app_id provider redirect appConfig plan usage).2
        ∧ List.indexOf LoginEvent.limitCheckRun
            (handleLogin app_id provider redirect appConfig plan usage).2
          < List.indexOf LoginEvent.providerRedirect
            (handleLogin app_id provider redirect appConfig plan usage).2) := by
  constructor
  · intro code stateStr now world usage0 hfail
    unfold handleCallback
    split
    · exact ⟨rfl, by simp⟩
    split
    · exact ⟨rfl, by simp⟩
    split
    · exact ⟨rfl, by simp⟩
    split
    · exact ⟨rfl, by simp⟩
    split
    · exact ⟨rfl, by simp⟩
    split
    · exact ⟨rfl, by simp⟩
    split
    · exact ⟨rfl, by simp⟩
    split
    · exact ⟨rfl, by simp⟩
    · rcases hfail with ⟨m, hm⟩ | ⟨m, hm⟩ | ⟨m, hm⟩ <;> simp_all
  · intro app_id provider redirect appConfig plan usage
    unfold handleLogin
    split
    · intro h
      simp at h
    split
    · intro h
      simp at h
    split
    · intro h
      simp at h
    split
    · intro h
      simp at h
    split
    · intro h
      simp at h
    split
    · intro h
      simp at h
    · intro h
      refine ⟨by simp, ?_⟩
      show List.indexOf LoginEvent.limitCheckRun
          [LoginEvent.configLookup, .planLookup, .limitCheckRun, .buildAuthUrlCall,
            .providerRedirect]
        < List.indexOf LoginEvent.providerRedirect
          [LoginEvent.configLookup, .planLookup, .limitCheckRun, .buildAuthUrlCall,
            .providerRedirect]
      decide

/-- Witness for C2: a callback whose code exchange fails leaves the counters
at their initial value with no increment event, and a concrete redirecting
login runs its admission check before the redirect. -/
theorem C2_usage_increment_discipline_witness :
    ((handleCallback (some "code1")
        (some ((encodeStateAt 1 "app1" "wechat" "/cb" "n0").getD "")) 2
        ⟨some ⟨"dev1", [⟨"wechat", true⟩]⟩, .error "exchange failed", .ok (), .ok ()⟩
        ⟨3, 5⟩).2.1 = ⟨3, 5⟩
      ∧ CbEvent.usageIncrement ∉ (handleCallback (some "code1")
          (some ((encodeStateAt 1 "app1" "wechat" "/cb" "n0").getD "")) 2
          ⟨some ⟨"dev1", [⟨"wechat", true⟩]⟩, .error "exchange failed", .ok (), .ok ()⟩
          ⟨3, 5⟩).2.2)
    ∧ (LoginEvent.limitCheckRun ∈ (handleLogin (some "app1") (some "wechat") (some "/cb")
          (some ⟨"dev1", [⟨"wechat", true⟩]⟩) .free ⟨0, 0⟩).2
      ∧ List.indexOf LoginEvent.limitCheckRun (handleLogin (some "app1") (some "wechat")
            (some "/cb") (some ⟨"dev1", [⟨"wechat", true⟩]⟩) .free ⟨0, 0⟩).2
          < List.indexOf LoginEvent.providerRedirect (handleLogin (some "app1") (some "wechat")
            (some "/cb") (some ⟨"dev1", [⟨"wechat", true⟩]⟩) .free ⟨0, 0⟩).2) :=
  ⟨C2_usage_increment_discipline.1 (some "code1")
      (some ((encodeStateAt 1 "app1" "wechat" "/cb" "n0").getD "")) 2
      ⟨some ⟨"dev1", [⟨"wechat", true⟩]⟩, .error "exchange failed", .ok (), .ok ()⟩
      ⟨3, 5⟩ (Or.inl ⟨"exchange failed", rfl⟩),
    C2_usage_increment_discipline.2 (some "app1") (some "wechat") (some "/cb")
      (some ⟨"dev1", [⟨"wechat", true⟩]⟩) .free ⟨0, 0⟩
      ((by decide : LoginEvent.providerRedirect ∈
          [LoginEvent.configLookup, LoginEvent.planLookup, LoginEvent.limitCheckRun,
            LoginEvent.buildAuthUrlCall, LoginEvent.providerRedirect]) :
        LoginEvent.providerRedirect ∈ _)⟩

/-- C1: for every valid tuple (app_id, provider, redirect, nonce) — non-empty
latin-1 strings, positive clock — decoding the string produced by
`encodeState` within the expiration window reconstructs the same four fields,
and decoding fails once the token's issue time is more than 600000 ms in the
past at decode time. -/
theorem C1_state_roundtrip (now1 now2 : Nat) (a p r n : String)
    (ha : ∀ c ∈ a.toList, c.toNat < 256) (hp : ∀ c ∈ p.toList, c.toNat < 256)
    (hr : ∀ c ∈ r.toList, c.toNat < 256) (hn : ∀ c ∈ n.toList, c.toNat < 256)
    (ha2 : a ≠ "") (hp2 : p ≠ "") (hr2 : r ≠ "") (hn2 : n ≠ "") (h0 : 0 < now1) :
    (¬ ((now2 : Int) - (now1 : Int) > (STATE_EXPIRATION : Int)) →
      ∃ d, (encodeStateAt now1 a p r n).bind (decodeStateAt now2) = some d
        ∧ getField d "app_id" = some (.jstr a)
        ∧ getField d "provider" = some (.jstr p)
        ∧ getField d "redirect" = some (.jstr r)
        ∧ getField d "nonce" = some (.jstr n))
    ∧ ((now2 : Int) - (now1 : Int) > (STATE_EXPIRATION : Int) →
      (encodeStateAt now1 a p r n).bind (decodeStateAt now2) = none) := by
  have hcore := decode_encode_core now1 now2 a p r n ha hp hr hn ha2 hp2 hr2 hn2 h0
  constructor
  · intro h
    rw [hcore, if_neg h]
    exact ⟨stateJson a p r n now1, rfl, rfl, rfl, rfl, rfl⟩
  · intro h
    rw [hcore, if_pos h]

/-- Witness for C1 at a concrete tuple: age 600000 ms is still in the window
and the four fields come back; age 600001 ms makes decoding fail. -/
theorem C1_state_roundtrip_witness :
    (∃ d, (encodeStateAt 5 "app1" "wechat" "/cb" "n1").bind (decodeStateAt 600005) = some d
        ∧ getField d "app_id" = some (.jstr "app1")
        ∧ getField d "provider" = some (.jstr "wechat")
        ∧ getField d "redirect" = some (.jstr "/cb")
        ∧ getField d "nonce" = some (.jstr "n1"))
    ∧ (encodeStateAt 5 "app1" "wechat" "/cb" "n1").bind (decodeStateAt 600006) = none :=
  ⟨(C1_state_roundtrip 5 600005 "app1" "wechat" "/cb" "n1"
      (by decide) (by decide) (by decide) (by decide)
      (by decide) (by decide) (by decide) (by decide) (by decide)).1 (by decide),
    (C1_state_roundtrip 5 600006 "app1" "wechat" "/cb" "n1"
      (by decide) (by decide) (by decide) (by decide)
      (by decide) (by decide) (by decide) (by decide) (by decide)).2 (by decide)⟩

set_option maxHeartbeats 1000000 in
/-- Parse stage of the round trip: `JSON.parse(atob(encodeState(...)))`
recovers the state object for latin-1 inputs, before any validation. -/
theorem stateParse_encodeState (now1 : Nat) (a p r n : String)
    (ha : ∀ c ∈ a.toList, c.toNat < 256) (hp : ∀ c ∈ p.toList, c.toNat < 256)
    (hr : ∀ c ∈ r.toList, c.toNat < 256) (hn : ∀ c ∈ n.toList, c.toNat < 256) :
    (encodeStateAt now1 a p r n).bind stateParse = some (stateJson a p r n now1) := by
  have hchars := stateJson_latin1 a p r n now1 ha hp hr hn
  have hall : (jsonStringify (stateJson a p r n now1)).toList.all
      (fun c => c.toNat < 256) = true := by
    rw [List.all_eq_true]
    intro c hc
    exact decide_eq_true (hchars c hc)
  have henc : btoa (jsonStringify (stateJson a p r n now1))
      = some (String.mk (b64EncodeBytes
          ((jsonStringify (stateJson a p r n now1)).toList.map Char.toNat))) := by
    unfold btoa
    rw [if_pos hall]
  unfold encodeStateAt
  rw [henc]
  show stateParse _ = _
  unfold stateParse
  rw [atob_btoa _ _ henc]
  show jsonParse (jsonStringify (stateJson a p r n now1)) = _
  rw [jsonParse_stringify]

/-- C10: decodeState rejects any token whose app_id, provider, redirect or
nonce is the empty string, or whose timestamp is 0, even when unexpired —
so the encode-then-decode round trip fails whenever an encoded input string
is empty — while a token whose age is exactly 600000 ms is still accepted,
because expiry requires age strictly greater than the window. -/
theorem C10_state_falsy_and_boundary (now1 : Nat) (a p r n : String)
    (ha : ∀ c ∈ a.toList, c.toNat < 256) (hp : ∀ c ∈ p.toList, c.toNat < 256)
    (hr : ∀ c ∈ r.toList, c.toNat < 256) (hn : ∀ c ∈ n.toList, c.toNat < 256) :
    (∀ now2, (a = "" ∨ p = "" ∨ r = "" ∨ n = "" ∨ now1 = 0) →
      (encodeStateAt now1 a p r n).bind (decodeStateAt now2) = none)
    ∧ (a ≠ "" → p ≠ "" → r ≠ "" → n ≠ "" → 0 < now1 →
      (encodeStateAt now1 a p r n).bind (decodeStateAt (now1 + STATE_EXPIRATION))
        = some (stateJson a p r n now1)) := by
  constructor
  · intro now2 hfal
    have hps := stateParse_encodeState now1 a p r n ha hp hr hn
    have hassoc : (encodeStateAt now1 a p r n).bind (decodeStateAt now2)
        = ((encodeStateAt now1 a p r n).bind stateParse).bind (validateStateObj now2) := by
      cases encodeStateAt now1 a p r n <;> rfl
    rw [hassoc, hps]
    show validateStateObj now2 (stateJson a p r n now1) = none
    unfold validateStateObj
    have hcond : (!truthyOpt (getField (stateJson a p r n now1) "app_id")
        || !truthyOpt (getField (stateJson a p r n now1) "provider")
        || !truthyOpt (getField (stateJson a p r n now1) "redirect")
        || !truthyOpt (getField (stateJson a p r n now1) "nonce")
        || !truthyOpt (getField (stateJson a p r n now1) "timestamp")) = true := by
      rcases hfal with h | h | h | h | h <;> subst h <;>
        simp [stateJson, getField, lastAssoc, truthyOpt, jsTruthy]
    rw [if_pos hcond]
  · intro ha2 hp2 hr2 hn2 h0
    have hcore := decode_encode_core now1 (now1 + STATE_EXPIRATION) a p r n
      ha hp hr hn ha2 hp2 hr2 hn2 h0
    have hb : ¬ (((now1 + STATE_EXPIRATION : Nat) : Int) - (now1 : Int)
        > (STATE_EXPIRATION : Int)) := by
      push_cast
      omega
    rw [hcore, if_neg hb]

/-- Witness for C10: an empty app_id makes an unexpired round trip fail, and
a token decoded exactly 600000 ms after issue is accepted. -/
theorem C10_state_falsy_and_boundary_witness :
    (encodeStateAt 7 "" "wechat" "/cb" "n1").bind (decodeStateAt 7) = none
    ∧ (encodeStateAt 7 "app1" "wechat" "/cb" "n1").bind
        (decodeStateAt (7 + STATE_EXPIRATION))
      = some (stateJson "app1" "wechat" "/cb" "n1" 7) :=
  ⟨(C10_state_falsy_and_boundary 7 "" "wechat" "/cb" "n1"
      (by decide) (by decide) (by decide) (by decide)).1 7 (Or.inl rfl),
    (C10_state_falsy_and_boundary 7 "app1" "wechat" "/cb" "n1"
      (by decide) (by decide) (by decide) (by decide)).2
      (by decide) (by decide) (by decide) (by decide) (by decide)⟩

/-- The five fields `decodeState` requires. -/
def requiredStateFields : List String :=
  ["app_id", "provider", "redirect", "nonce", "timestamp"]

theorem validateStateObj_none_iff (now : Nat) (d : JVal) :
    validateStateObj now d = none
      ↔ ((∃ k ∈ requiredStateFields, truthyOpt (getField d k) = false)
        ∨ stateExpired now (getField d "timestamp") = true) := by
  unfold validateStateObj
  by_cases h1 : (!truthyOpt (getField d "app_id") || !truthyOpt (getField d "provider")
      || !truthyOpt (getField d "redirect") || !truthyOpt (getField d "nonce")
      || !truthyOpt (getField d "timestamp")) = true
  · rw [if_pos h1]
    simp only [Bool.or_eq_true, Bool.not_eq_true'] at h1
    simp only [requiredStateFields, List.mem_cons, List.not_mem_nil, or_false, true_iff]
    left
    rcases h1 with ((((h | h) | h) | h) | h)
    · exact ⟨"app_id", Or.inl rfl, h⟩
    · exact ⟨"provider", Or.inr (Or.inl rfl), h⟩
    · exact ⟨"redirect", Or.inr (Or.inr (Or.inl rfl)), h⟩
    · exact ⟨"nonce", Or.inr (Or.inr (Or.inr (Or.inl rfl))), h⟩
    · exact ⟨"timestamp", Or.inr (Or.inr (Or.inr (Or.inr rfl))), h⟩
  · rw [if_neg h1]
    simp only [Bool.or_eq_true, Bool.not_eq_true', not_or, Bool.not_eq_false] at h1
    obtain ⟨⟨⟨⟨hta, htp⟩, htr⟩, htn⟩, htt⟩ := h1
    by_cases h2 : stateExpired now (getField d "timestamp") = true
    · rw [if_pos h2]
      simp only [true_iff]
      exact Or.inr h2
    · rw [if_neg h2]
      simp only [requiredStateFields, List.mem_cons, List.not_mem_nil, or_false]
      constructor
      · intro h
        exact absurd h (by simp)
      · intro h
        rcases h with ⟨k, hk, hkf⟩ | hexp
        · rcases hk with rfl | rfl | rfl | rfl | rfl <;> simp_all
        · exact absurd hexp h2

/-- Counterexample to C6: a parseable, unexpired token in which every
required field is present — app_id is the empty string, not absent — is
still rejected by decodeState, so "invalid exactly when a required field is
absent, parsing fails, or the token expired" does not hold. -/
theorem C6_decode_invalid_falsy_cex :
    ∃ d, stateParse ((encodeStateAt 5 "" "wechat" "/cb" "n1").getD "") = some d
      ∧ (∀ k ∈ requiredStateFields, (getField d k).isSome = true)
      ∧ stateExpired 5 (getField d "timestamp") = false
      ∧ decodeStateAt 5 ((encodeStateAt 5 "" "wechat" "/cb" "n1").getD "") = none := by
  have hps := stateParse_encodeState 5 "" "wechat" "/cb" "n1"
    (by decide) (by decide) (by decide) (by decide)
  obtain ⟨t, henc⟩ : ∃ t, encodeStateAt 5 "" "wechat" "/cb" "n1" = some t := by
    cases h : encodeStateAt 5 "" "wechat" "/cb" "n1" with
    | none =>
        rw [h] at hps
        exact absurd hps (by simp)
    | some t => exact ⟨t, rfl⟩
  rw [henc] at hps
  simp only [Option.some_bind] at hps
  refine ⟨stateJson "" "wechat" "/cb" "n1" 5, ?_, by decide, by decide, ?_⟩
  · rw [henc]
    simp only [Option.getD_some]
    exact hps
  · rw [henc]
    simp only [Option.getD_some]
    unfold decodeStateAt
    rw [hps]
    simp only [Option.some_bind]
    rfl

/-- C6 (amended): decodeState is total — modelled as a function into
`Option` — and returns invalid exactly when the payload cannot be parsed as
base64 JSON, when any of the required fields app_id, provider, redirect,
nonce, timestamp is absent OR FALSY (the code tests `!decoded.field`, so a
present empty string or a 0 timestamp is also rejected), or when now minus
the embedded timestamp strictly exceeds 600000 ms. -/
theorem C6_decode_invalid_iff_amended (now : Nat) (s : String) :
    decodeStateAt now s = none
      ↔ (stateParse s = none
        ∨ ∃ d, stateParse s = some d
            ∧ ((∃ k ∈ requiredStateFields, truthyOpt (getField d k) = false)
              ∨ stateExpired now (getField d "timestamp") = true)) := by
  unfold decodeStateAt
  cases hps : stateParse s with
  | none =>
      simp
  | some d =>
      simp only [Option.some_bind, Option.some.injEq, reduceCtorEq, false_or]
      rw [validateStateObj_none_iff]
      constructor
      · intro h
        exact ⟨d, rfl, h⟩
      · intro h
        obtain ⟨d2, hd2, h⟩ := h
        cases hd2
        exact h

theorem jsOrStr_ne_empty (o : Option String) (d : String) (hd : d ≠ "") :
    jsOrStr o d ≠ "" := by
  unfold jsOrStr
  cases o with
  | none => exact hd
  | some s =>
      show (if s = "" then d else s) ≠ ""
      by_cases hs : s = ""
      · rw [if_pos hs]
        exact hd
      · rw [if_neg hs]
        exact hs

theorem append_ne_empty (s t : String) (hs : s ≠ "") : s ++ t ≠ "" := by
  intro h
  apply hs
  have h2 : s.toList ++ t.toList = ([] : List Char) := by
    rw [← toList_append]
    rw [h]
    rfl
  exact toList_inj (List.append_eq_nil.mp h2).1

/-- Counterexample to C9: when Alipay omits the gender field, or for every
DingTalk payload, normalizeUser leaves gender undefined instead of supplying
a defined (possibly "unknown") value. -/
theorem C9_normalize_gender_cex :
    (alipayNormalizeUser ⟨"2088123412341234", none, none, none⟩).gender = none
    ∧ (alipayNormalizeUser ⟨"2088123412341234", none, none, some "x"⟩).gender = none
    ∧ (dingtalkNormalizeUser ⟨some "o1", some "u1", some "nick", none, none⟩).gender
        = none :=
  ⟨rfl, rfl, rfl⟩

/-- C9 (amended): every adapter is a pure total mapping that always supplies
a non-empty display name; WeChat, QQ, Douyin and Weibo always supply a
defined gender in male, female, unknown; DingTalk never sets gender; Alipay
yields male or female for recognised codes and leaves gender undefined
otherwise. -/
theorem C9_normalize_total_amended (w : WeChatRaw) (q : QQRaw) (d : DouyinRaw)
    (t : DingTalkRaw) (b : WeiboRaw) (a : AlipayRaw) :
    ((wechatNormalizeUser w).nickname ≠ ""
      ∧ ∃ g ∈ ["male", "female", "unknown"], (wechatNormalizeUser w).gender = some g)
    ∧ ((qqNormalizeUser q).nickname ≠ ""
      ∧ ∃ g ∈ ["male", "female", "unknown"], (qqNormalizeUser q).gender = some g)
    ∧ ((douyinNormalizeUser d).nickname ≠ ""
      ∧ ∃ g ∈ ["male", "female", "unknown"], (douyinNormalizeUser d).gender = some g)
    ∧ ((dingtalkNormalizeUser t).nickname ≠ ""
      ∧ (dingtalkNormalizeUser t).gender = none)
    ∧ ((weiboNormalizeUser b).nickname ≠ ""
      ∧ ∃ g ∈ ["male", "female", "unknown"], (weiboNormalizeUser b).gender = some g)
    ∧ ((alipayNormalizeUser a).nickname ≠ ""
      ∧ ((alipayNormalizeUser a).gender = some "male"
        ∨ (alipayNormalizeUser a).gender = some "female"
        ∨ (alipayNormalizeUser a).gender = none)) := by
  refine ⟨⟨jsOrStr_ne_empty _ _ (by decide), ?_⟩,
    ⟨jsOrStr_ne_empty _ _ (by decide), ?_⟩,
    ⟨jsOrStr_ne_empty _ _ (by decide), ?_⟩,
    ⟨jsOrStr_ne_empty _ _ (by decide), rfl⟩,
    ⟨jsOrStr_ne_empty _ _ (by decide), ?_⟩,
    ⟨jsOrStr_ne_empty _ _ (append_ne_empty _ _ (by decide)), ?_⟩⟩
  · by_cases h1 : w.sex = some 1
    · exact ⟨"male", by simp, by simp [wechatNormalizeUser, h1]⟩
    · by_cases h2 : w.sex = some 2
      · exact ⟨"female", by simp, by simp [wechatNormalizeUser, h1, h2]⟩
      · exact ⟨"unknown", by simp, by simp [wechatNormalizeUser, h1, h2]⟩
  · by_cases h1 : q.gender = some "男"
    · exact ⟨"male", by simp, by simp [qqNormalizeUser, h1]⟩
    · by_cases h2 : q.gender = some "女"
      · exact ⟨"female", by simp, by simp [qqNormalizeUser, h1, h2]⟩
      · exact ⟨"unknown", by simp, by simp [qqNormalizeUser, h1, h2]⟩
  · by_cases h1 : d.gender = some 1
    · exact ⟨"male", by simp, by simp [douyinNormalizeUser, h1]⟩
    · by_cases h2 : d.gender = some 2
      · exact ⟨"female", by simp, by simp [douyinNormalizeUser, h1, h2]⟩
      · exact ⟨"unknown", by simp, by simp [douyinNormalizeUser, h1, h2]⟩
  · by_cases h1 : b.gender = some "m"
    · exact ⟨"male", by simp, by simp [weiboNormalizeUser, h1]⟩
    · by_cases h2 : b.gender = some "f"
      · exact ⟨"female", by simp, by simp [weiboNormalizeUser, h1, h2]⟩
      · exact ⟨"unknown", by simp, by simp [weiboNormalizeUser, h1, h2]⟩
  · by_cases h1 : a.gender = some "M"
    · exact Or.inl (by simp [alipayNormalizeUser, h1])
    · by_cases h2 : a.gender = some "F"
      · exact Or.inr (Or.inl (by simp [alipayNormalizeUser, h1, h2]))
      · exact Or.inr (Or.inr (by simp [alipayNormalizeUser, h1, h2]))

/-- Counterexample to C4: for the parameter set actually produced for the
outbound token request — which contains a sign_type entry — signRequest signs
all parameters, while verifySignature strips sign_type before rebuilding the
canonical string, so sign-then-verify over those parameters returns false. -/
theorem C4_alipay_sign_roundtrip_cex :
    verifySignature dummyScheme (alipayTokenParams "app9" "2024-01-01 00:00:00" "authcode")
      (signRequest dummyScheme (alipayTokenParams "app9" "2024-01-01 00:00:00" "authcode"))
      = false := by
  have h := verify_fails_of_content_ne dummyScheme
    (alipayTokenParams "app9" "2024-01-01 00:00:00" "authcode")
    (signContentOf (alipayTokenParams "app9" "2024-01-01 00:00:00" "authcode"))
    (by decide)
  exact h

/-- C4 (amended): the signing round trip holds for parameter sets that carry
neither a sign nor a sign_type key (the set verifySignature actually checks):
for such a set with unique, ampersand-free keys and values, sign-then-verify
returns true, and altering any parameter value after signing makes
verifySignature return false. -/
theorem C4_alipay_sign_roundtrip_amended (scheme : SigScheme)
    (P : List (String × String))
    (hks : ∀ kv ∈ P, kv.1 ≠ "sign" ∧ kv.1 ≠ "sign_type")
    (hnodup : (P.map Prod.fst).Nodup)
    (hamp : ∀ kv ∈ P, '&' ∉ kv.1.toList ∧ '&' ∉ kv.2.toList) :
    verifySignature scheme P (signRequest scheme P) = true
    ∧ ∀ i, ∀ hi : i < P.length, ∀ v2 : String, '&' ∉ v2.toList →
        v2 ≠ (P.get ⟨i, hi⟩).2 →
        verifySignature scheme (P.set i ((P.get ⟨i, hi⟩).1, v2))
          (signRequest scheme P) = false := by
  constructor
  · exact verify_signRequest_of_clean scheme P hks
  · intro i hi v2 hampv hne
    have hne2 := signContent_ne_of_value_change P i hi v2 hnodup hamp hampv hne
    have hfil : (P.set i ((P.get ⟨i, hi⟩).1, v2)).filter
        (fun kv => kv.1 != "sign" && kv.1 != "sign_type")
        = P.set i ((P.get ⟨i, hi⟩).1, v2) := by
      apply List.filter_eq_self.mpr
      intro kv hkv
      rcases List.mem_or_eq_of_mem_set hkv with h | h
      · simp [bne_iff_ne, (hks kv h).1, (hks kv h).2]
      · have hmem := hks _ (List.getElem_mem hi)
        subst h
        simp only [Bool.and_eq_true, bne_iff_ne, ne_eq]
        exact ⟨hmem.1, hmem.2⟩
    exact verify_fails_of_content_ne scheme (P.set i ((P.get ⟨i, hi⟩).1, v2))
      (signContentOf P) (by rw [hfil]; exact hne2)

/-- Witness for the amended C4 at a concrete clean parameter set: the round
trip verifies, and changing the value of key a from 1 to 9 fails. -/
theorem C4_alipay_sign_roundtrip_amended_witness :
    verifySignature dummyScheme [("a", "1"), ("b", "2")]
      (signRequest dummyScheme [("a", "1"), ("b", "2")]) = true
    ∧ verifySignature dummyScheme [("a", "9"), ("b", "2")]
      (signRequest dummyScheme [("a", "1"), ("b", "2")]) = false := by
  have h := C4_alipay_sign_roundtrip_amended dummyScheme [("a", "1"), ("b", "2")]
    (by decide) (by decide) (by decide)
  exact ⟨h.1, h.2 0 (by decide) "9" (by decide) (by decide)⟩
